import Mathlib

set_option maxRecDepth 100000

/-!
Verification of the slug-mapping and static-page-generation pipeline of the
permacomputing-club repository, as a shallow embedding in Lean 4.

Strings are modelled as `List Char` (with `String` wrappers at the API
boundary).  JavaScript string builtins (`toLowerCase`, `trim`, `split`,
regexes used by the source) are embedded character-wise over the ASCII
alphabet, matching the behaviour of the engine on the character classes the
source uses (`\w` = ASCII word chars, `\s` = whitespace, `\d` = ASCII
digits); Unicode special-casing of `toLowerCase` is outside the model.

External collaborators that are not code of this repository (the `marked`
markdown renderer, `JSON.parse`, `Date` parsing, `encodeURIComponent`,
locale date formatting) are modelled from the specification; each such
definition carries a doc comment starting with "Modelled from the spec:".
-/

/-- Left brace character, kept out of string literals. -/

def lbrace : Char := Char.ofNat 123

/-- Right brace character, kept out of string literals. -/

def rbrace : Char := Char.ofNat 125

/-- Double-quote character. -/

def dquote : Char := Char.ofNat 34

/-- Single-quote character. -/

def squote : Char := Char.ofNat 39

/-- Backquote character. -/

def backquote : Char := Char.ofNat 96

/-- Truth of "the character is an ASCII upper-case letter". -/

def isAsciiUpper (c : Char) : Bool :=
  65 ≤ c.toNat && c.toNat ≤ 90

/-- Truth of "the character is an ASCII lower-case letter". -/

def isAsciiLower (c : Char) : Bool :=
  97 ≤ c.toNat && c.toNat ≤ 122

/-- Truth of "the character is an ASCII digit" (the `\d` class). -/

def isAsciiDigit (c : Char) : Bool :=
  48 ≤ c.toNat && c.toNat ≤ 57

/-- Embedding of `String.prototype.toLowerCase`, character-wise on the
ASCII range (the only case-mapping the character classes of the pipeline can
observe). -/

def jsToLower (c : Char) : Char :=
  if isAsciiUpper c then Char.ofNat (c.toNat + 32) else c

/-- Whitespace class of JavaScript regexes (`\s`) and of `String.prototype.trim`,
restricted to the characters that can appear in the model: space, tab, line
feed, carriage return, form feed, vertical tab and no-break space. -/

def isSpaceJS (c : Char) : Bool :=
  c.toNat = 32 || c.toNat = 9 || c.toNat = 10 || c.toNat = 13 || c.toNat = 12 ||
    c.toNat = 11 || c.toNat = 160

/-- Word-character class of JavaScript regexes (`\w` = `[A-Za-z0-9_]`). -/

def isWordChar (c : Char) : Bool :=
  isAsciiUpper c || isAsciiLower c || isAsciiDigit c || c.toNat = 95

/-- Characters kept by the first replacement of `generateSlug`
(`.replace(/[^\w\s-]/g, "")` keeps `\w`, `\s` and `-`). -/

def keepChar (c : Char) : Bool :=
  isWordChar c || isSpaceJS c || c.toNat = 45

/-- Separator class of the second replacement of `generateSlug` (`[\s_-]`). -/

def isSepChar (c : Char) : Bool :=
  isSpaceJS c || c.toNat = 95 || c.toNat = 45

/-- Embedding of `.replace(/[\s_-]+/g, "-")`: every maximal run of
whitespace/underscore/hyphen characters is replaced by a single hyphen. -/

def collapseSeps : List Char → List Char
  | [] => []
  | [c] => if isSepChar c then ['-'] else [c]
  | c :: d :: rest =>
    if isSepChar c then
      if isSepChar d then collapseSeps (d :: rest)
      else '-' :: collapseSeps (d :: rest)
    else c :: collapseSeps (d :: rest)

/-- Removal of the trailing hyphen run (`-+$`). -/

def dropTrailingHyphens : List Char → List Char
  | [] => []
  | c :: rest =>
    let r := dropTrailingHyphens rest
    if c = '-' && r.isEmpty then [] else c :: r

/-- Embedding of `.replace(/^-+|-+$/g, "")`: drop the leading run and the
trailing run of hyphens. -/

def trimHyphens (l : List Char) : List Char :=
  dropTrailingHyphens (l.dropWhile (fun c => c = '-'))

/-- Embedding of `.replace(/^\d+[_-]/, "")`: drop one leading run of digits
together with the underscore or hyphen that follows it, when present. -/

def stripLeadingNum (l : List Char) : List Char :=
  let ds := l.takeWhile isAsciiDigit
  let rest := l.dropWhile isAsciiDigit
  if ds.isEmpty then l
  else
    match rest with
    | [] => l
    | c :: t => if c = '_' || c = '-' then t else l

/-- List-level embedding of `generateSlug` (src/utils/index.ts:11-19):
lower-case, remove non-word characters, collapse separator runs to one
hyphen, trim leading/trailing hyphens, strip a leading digit run followed by
a separator, and cap the length at 100. -/

def generateSlugL (l : List Char) : List Char :=
  (stripLeadingNum (trimHyphens (collapseSeps ((l.map jsToLower).filter keepChar)))).take 100

/-- Embedding of `generateSlug` (src/utils/index.ts:11-19). -/

def generateSlug (s : String) : String :=
  String.mk (generateSlugL s.data)

/-- Character class `[a-z0-9]` of the slug pattern. -/

def isSlugAlnum (c : Char) : Bool :=
  isAsciiLower c || isAsciiDigit c

/-- Truth of "the list has no two adjacent hyphens" (no `--` infix). -/

def noHyphenRun : List Char → Bool
  | [] => true
  | [_] => true
  | a :: b :: rest => !(a = '-' && b = '-') && noHyphenRun (b :: rest)

/-- Truth of "the list has no two adjacent separator characters". -/

def noAdjSep : List Char → Bool
  | [] => true
  | [_] => true
  | a :: b :: rest => !(isSepChar a && isSepChar b) && noAdjSep (b :: rest)

/-- Truth of "the list matches `^[a-z0-9]+(-[a-z0-9]+)*$`": non-empty, over
the alphabet `[a-z0-9-]`, not starting or ending with a hyphen, and with no
run of two or more hyphens. -/

def matchesSlugPattern (l : List Char) : Bool :=
  !l.isEmpty && l.all (fun c => isSlugAlnum c || c = '-') &&
    l.head? != some '-' && l.getLast? != some '-' && noHyphenRun l

/-- Truth of "the list starts with a digit run followed by a hyphen"
(the shape consumed by the `^\d+[_-]` pass of `generateSlug` on a slug, where no
underscore can remain). -/

def startsDigitsHyphen (l : List Char) : Bool :=
  !(l.takeWhile isAsciiDigit).isEmpty && (l.dropWhile isAsciiDigit).head? = some '-'

/-- Lower-casing of a character list (`String.prototype.toLowerCase`, ASCII). -/

def lowerL (l : List Char) : List Char :=
  l.map jsToLower

/-- Embedding of `String.prototype.trim`: drop leading and trailing whitespace. -/

def trimL (l : List Char) : List Char :=
  ((l.dropWhile isSpaceJS).reverse.dropWhile isSpaceJS).reverse

/-- Embedding of `String.prototype.split(sep)` for a one-character separator. -/

def splitOnChar (sep : Char) : List Char → List (List Char)
  | [] => [[]]
  | c :: rest =>
    if c = sep then [] :: splitOnChar sep rest
    else
      match splitOnChar sep rest with
      | [] => [[c]]
      | g :: gs => (c :: g) :: gs

/-- Truth of "the first list is a prefix of the second". -/

def startsWithL : List Char → List Char → Bool
  | [], _ => true
  | _ :: _, [] => false
  | p :: ps, c :: cs => p = c && startsWithL ps cs

/-- Case-insensitive variant of `startsWithL` (ASCII fold). -/

def startsWithCIL (p l : List Char) : Bool :=
  startsWithL (lowerL p) (lowerL l)

/-- Truth of "the first list occurs as a contiguous substring of the second". -/

def infixL (needle : List Char) : List Char → Bool
  | [] => needle.isEmpty
  | c :: rest => startsWithL needle (c :: rest) || infixL needle rest

/-- Number of positions of the haystack at which the needle occurs. -/

def countInfixL (needle : List Char) : List Char → Nat
  | [] => if needle.isEmpty then 1 else 0
  | c :: rest => (if startsWithL needle (c :: rest) then 1 else 0) + countInfixL needle rest

/-- Concatenation of a list of character lists with a separator, as in
`Array.prototype.join(sep)`. -/

def joinSep (sep : List Char) : List (List Char) → List Char
  | [] => []
  | [g] => g
  | g :: g2 :: gs => g ++ sep ++ joinSep sep (g2 :: gs)

/-- Truth of "the character is a single or double quote" (the quote class of
the external-link regex). -/

def isQuote (c : Char) : Bool :=
  c.toNat = 34 || c.toNat = 39

/-- Continuation of the external-link regex after a candidate `href=`:
matches quote, `https?:`, two slashes, a non-empty run of non-quote
characters, a quote and then everything up to the closing `>`, returning
the remainder of the
input after the closing `>`. -/

def matchHrefCont (v : List Char) : Option (List Char) :=
  match v with
  | [] => none
  | q :: v1 =>
    if isQuote q then
      if startsWithCIL "http".data v1 then
        let v2 := v1.drop 4
        let v3 := if startsWithCIL "s".data v2 then v2.drop 1 else v2
        if startsWithL "://".data v3 then
          let v4 := v3.drop 3
          let url := v4.takeWhile (fun c => !(isQuote c))
          let v5 := v4.drop url.length
          if url.isEmpty then none
          else
            match v5 with
            | [] => none
            | q2 :: v6 =>
              if isQuote q2 then
                match v6.dropWhile (fun c => c ≠ '>') with
                | [] => none
                | _ :: v8 => some v8
              else none
        else none
      else none
    else none

/-- Backtracking search for the `[^>]*href=` part of the external-link
regex: the `[^>]*` run is greedy, so deeper (more rightward) positions of
`href=` are tried first; the search may not cross a `>`. Returns the
remainder of the input after the full match. -/

def goHref : List Char → Option (List Char)
  | [] => none
  | c :: w =>
    match (if c ≠ '>' then goHref w else none) with
    | some r => some r
    | none =>
      if startsWithCIL "href=".data (c :: w) then matchHrefCont ((c :: w).drop 5)
      else none

/-- Attempt to match the external-link regex
used on anchors (`<a`, whitespace, a negative lookahead refusing a
`target=` before the tag closes, then an `href=` whose quoted value starts
with `http` or `https` and a colon and two slashes, up to the closing `>`,
flags `gi`) at the head of the input; returns the remainder after the
match. -/

def tryMatchAnchor (s : List Char) : Option (List Char) :=
  match s with
  | c1 :: c2 :: t =>
    if c1 = '<' && (c2 = 'a' || c2 = 'A') then
      let ws := t.takeWhile isSpaceJS
      let t1 := t.dropWhile isSpaceJS
      if ws.isEmpty then none
      else
        let pre := t1.takeWhile (fun c => c ≠ '>')
        if infixL "target=".data (lowerL pre) then none
        else goHref t1
    else none
  | _ => none

/-- Embedding of the per-match rewrite: the final `>` of the matched tag is
replaced by the target and rel attributes followed by `>`. -/

def appendTargetBlank (m : List Char) : List Char :=
  match m.getLast? with
  | some c =>
    if c = '>' then m.dropLast ++ " target=\"_blank\" rel=\"noopener noreferrer\">".data
    else m
  | none => m

/-- Left-to-right global scan of the external-link regex: at each position
try to match; on a match, rewrite it and continue after its end, otherwise
advance one character. Fuel bounds the number of steps (the input length
suffices, as every step consumes at least one character). -/

def addTargetBlankScan : Nat → List Char → List Char
  | 0, s => s
  | _ + 1, [] => []
  | f + 1, c :: rest =>
    match tryMatchAnchor (c :: rest) with
    | some r =>
      appendTargetBlank ((c :: rest).take ((c :: rest).length - r.length)) ++
        addTargetBlankScan f r
    | none => c :: addTargetBlankScan f rest

/-- List-level embedding of `addTargetBlankToExternalLinks`
(src/utils/index.ts:26-38). -/

def addTargetBlankToExternalLinksL (s : List Char) : List Char :=
  addTargetBlankScan s.length s

/-- Embedding of `addTargetBlankToExternalLinks` (src/utils/index.ts:26-38). -/

def addTargetBlankToExternalLinks (html : String) : String :=
  String.mk (addTargetBlankToExternalLinksL html.data)

/-- Embedding of the anchored colour/border regex `^colour:\s*(.+)$/i`
(resp. `^border:...`) applied by `extractColourFromDescription` to the raw
(untrimmed) line: on a match the assigned value is the trimmed remainder
after the colon (the capture is non-empty whenever the regex matches, so the
JS truthiness guard on the capture never blocks the assignment). -/

def colourRegexValue (key : List Char) (line : List Char) : List Char :=
  if startsWithCIL (key ++ [':']) line then
    let rest := line.drop (key.length + 1)
    if rest.isEmpty then [] else trimL rest
  else []

/-- Result record of `extractColourFromDescription`. -/

structure ColourResult where
  backgroundColor : String
  borderColor : String
deriving Repr, DecidableEq

/-- Embedding of `extractColourFromDescription` (src/utils/index.ts:45-86):
split into non-blank lines, locate the first line whose trimmed lower-cased
text starts with `colour:` (resp. `border:`), then run the anchored regex on
the raw line. -/

def extractColourFromDescription (description : String) : ColourResult :=
  if description = "" then ⟨"", ""⟩
  else
    let lines := (splitOnChar '\n' description.data).filter (fun l => !(trimL l).isEmpty)
    let colourLine := lines.find? (fun l => startsWithL "colour:".data (lowerL (trimL l)))
    let borderLine := lines.find? (fun l => startsWithL "border:".data (lowerL (trimL l)))
    let bg := match colourLine with
      | some l => colourRegexValue "colour".data l
      | none => []
    let bd := match borderLine with
      | some l => colourRegexValue "border".data l
      | none => []
    ⟨String.mk bg, String.mk bd⟩

/-- Truth of "the character is in the unreserved set of `encodeURIComponent`"
(letters, digits, hyphen, underscore, dot, bang, tilde, star, apostrophe
and parentheses). -/

def isUriUnreserved (c : Char) : Bool :=
  isAsciiUpper c || isAsciiLower c || isAsciiDigit c || c = '-' || c = '_' || c = '.' || c = '!' || c = '~' ||
    c = '*' || c = squote || c = '(' || c = ')'

/-- UTF-8 bytes of a character (standard encoding). -/

def utf8BytesOf (c : Char) : List Nat :=
  let n := c.toNat
  if n < 128 then [n]
  else if n < 2048 then [192 + n / 64, 128 + n % 64]
  else if n < 65536 then [224 + n / 4096, 128 + (n / 64) % 64, 128 + n % 64]
  else [240 + n / 262144, 128 + (n / 4096) % 64, 128 + (n / 64) % 64, 128 + n % 64]

/-- Upper-case hexadecimal digit. -/

def hexDigitUpper (n : Nat) : Char :=
  if n < 10 then Char.ofNat (48 + n) else Char.ofNat (55 + n)

/-- Percent-encoding of one byte. -/

def percentByte (b : Nat) : List Char :=
  ['%', hexDigitUpper (b / 16), hexDigitUpper (b % 16)]

/-- Modelled from the spec: the `encodeURIComponent` builtin used for tag and
author links ("each tag rendered as a hyperlink to `/#<url-encoded-tag>`"):
unreserved characters pass through, every other character is replaced by the
percent-encoding of its UTF-8 bytes. -/

def encodeURIComponentL (l : List Char) : List Char :=
  (l.map (fun c =>
    if isUriUnreserved c then [c] else ((utf8BytesOf c).map percentByte).flatten)).flatten

/-- Paragraph flush of the modelled markdown renderer. -/

def flushPara (ls : List (List Char)) : List (List Char) :=
  if ls.isEmpty then [] else ["<p>".data ++ joinSep "\n".data ls ++ "</p>".data]

/-- Line grouping of the modelled markdown renderer: blank lines separate
paragraphs, a line that already is HTML (starts with `<`) passes through
verbatim, consecutive plain lines form one paragraph. -/

def mdRender : List (List Char) → List (List Char) → List (List Char)
  | acc, [] => flushPara acc
  | acc, l :: rest =>
    if (trimL l).isEmpty then flushPara acc ++ mdRender [] rest
    else if startsWithL "<".data l then flushPara acc ++ [l] ++ mdRender [] rest
    else mdRender (acc ++ [l]) rest

/-- Modelled from the spec: the external markdown-rendering collaborator
(`marked.parse`), "a pure text→HTML transform"; the testable properties of
the spec use it only to render plain text as paragraphs and to pass
already-HTML heading lines through (for example a markdown-rendered
paragraph `Some text here.`, and `<h3>Title</h3>` followed by a paragraph
`Body`). -/

def markedParseL (l : List Char) : List Char :=
  joinSep "\n".data (mdRender [] (splitOnChar '\n' l))

/-- Metadata keys of the description directive regex
`^(pin|colour|tags|border|author):\s*(.+)$/i`, in source order. -/

def metaKeys : List (List Char) :=
  ["pin".data, "colour".data, "tags".data, "border".data, "author".data]

/-- Directive matcher over the key alternation: on a trimmed line, the regex
matches exactly when the line starts (case-insensitively) with `key:` and a
non-empty remainder follows; the captured value is the remainder after the
greedy `\s*`. Returns the (lower-cased) key and the raw captured value. -/

def matchMetaAux : List (List Char) → List Char → Option (List Char × List Char)
  | [], _ => none
  | k :: ks, line =>
    if startsWithCIL (k ++ [':']) line then
      let rest := line.drop (k.length + 1)
      let value := rest.dropWhile isSpaceJS
      if value.isEmpty then none else some (k, value)
    else matchMetaAux ks line

/-- Embedding of the metadata directive regex of `processItemDescription`
(src/utils/index.ts:287). -/

def matchMeta (line : List Char) : Option (List Char × List Char) :=
  matchMetaAux metaKeys line

/-- One rendered tag hyperlink (src/utils/index.ts:315-318). -/

def tagLink (tag : List Char) : List Char :=
  "<a href=\"/#".data ++ encodeURIComponentL tag ++
    "\" class=\"tag-link\">#".data ++ tag ++ "</a>".data

/-- The rendered tags metadata field (src/utils/index.ts:320-334). -/

def tagsField (tags : List (List Char)) : List Char :=
  "<div class=\"description-field tags-field item-tags\"><span class=\"description-key\">Tags:</span> ".data ++
    joinSep " ".data (tags.map tagLink) ++ "</div>".data

/-- The rendered author metadata field (src/utils/index.ts:338-340). -/

def authorField (value : List Char) : List Char :=
  "<div class=\"description-field author-field\"><span class=\"description-key\">Author:</span> <a href=\"/".data ++
    encodeURIComponentL value ++ "\">".data ++ value ++ "</a></div>".data

/-- Accumulator of the first pass of `processItemDescription`. -/

structure DescScanState where
  isPinned : Bool
  markdownContent : List Char
  metadataFields : List (List Char)
deriving Repr, DecidableEq

/-- One line of the first pass of `processItemDescription`
(src/utils/index.ts:277-347): blank lines add a newline to the prose buffer,
directive lines update the pinned flag / metadata fields, and other lines
are appended (trimmed, with a blank line after) to the prose buffer. -/

def descStep (st : DescScanState) (line : List Char) : DescScanState :=
  let t := trimL line
  if t.isEmpty then { st with markdownContent := st.markdownContent ++ "\n".data }
  else
    match matchMeta t with
    | some kv =>
      let value := trimL kv.2
      if kv.1 = "pin".data then
        if lowerL value = "top".data then { st with isPinned := true } else st
      else if kv.1 = "colour".data || kv.1 = "border".data then st
      else if kv.1 = "tags".data then
        let tags := ((splitOnChar ',' value).map trimL).filter (fun x => !x.isEmpty)
        if tags.isEmpty then st
        else
          -- the source distinguishes a single hidden tag ("notes"/"event")
          -- from the general case, but both branches push an identical string
          { st with metadataFields := st.metadataFields ++ [tagsField tags] }
      else if kv.1 = "author".data then
        { st with metadataFields := st.metadataFields ++ [authorField value] }
      else st
    | none => { st with markdownContent := st.markdownContent ++ t ++ "\n\n".data }

/-- Streaming form of newline-run capping: `run` counts the newlines already
emitted for the current run; once two have been emitted further newlines of
the run are dropped. -/

def collapseNLAux : Nat → List Char → List Char
  | _, [] => []
  | run, c :: rest =>
    if c = '\n' then
      if run < 2 then c :: collapseNLAux (run + 1) rest else collapseNLAux run rest
    else c :: collapseNLAux 0 rest

/-- Embedding of `.replace(/\n{3,}/g, "\n\n")`: cap every newline run at two. -/

def collapseNewlineRuns (l : List Char) : List Char :=
  collapseNLAux 0 l

/-- Result record of `processItemDescription`. -/

structure DescriptionResult where
  html : String
  isPinned : Bool
deriving Repr, DecidableEq

/-- Embedding of `processItemDescription` (src/utils/index.ts:259-372). -/

def processItemDescription (description : String) : DescriptionResult :=
  if description = "" then ⟨"", false⟩
  else
    let st := (splitOnChar '\n' description.data).foldl descStep ⟨false, [], []⟩
    let processedMarkdown :=
      if (trimL st.markdownContent).isEmpty then []
      else markedParseL (trimL (collapseNewlineRuns st.markdownContent))
    let parts :=
      (st.metadataFields ++
        [if processedMarkdown.isEmpty then []
         else "<div class=\"markdown-content\">".data ++ processedMarkdown ++ "</div>".data]).filter
        (fun p => !p.isEmpty)
    ⟨String.mk (addTargetBlankToExternalLinksL (joinSep "\n".data parts)), st.isPinned⟩

/-- JSON values, for the model of the `JSON.parse` builtin. -/

inductive Json where
  | null : Json
  | bool : Bool → Json
  | num : Int → Json
  | str : List Char → Json
  | arr : List Json → Json
  | obj : List (List Char × Json) → Json
deriving Repr

/-- Hexadecimal digit value. -/

def hexVal (c : Char) : Option Nat :=
  if isAsciiDigit c then some (c.toNat - 48)
  else if 'a' ≤ c && c ≤ 'f' then some (c.toNat - 87)
  else if 'A' ≤ c && c ≤ 'F' then some (c.toNat - 55)
  else none

/-- JSON string body scanner (input starts after the opening quote): returns
the decoded characters and the remainder after the closing quote, handling
the standard escapes. -/

def jstrAux : List Char → Option (List Char × List Char)
  | [] => none
  | c :: rest =>
    if c = dquote then some ([], rest)
    else if c = '\\' then
      match rest with
      | 'u' :: h1 :: h2 :: h3 :: h4 :: rest3 =>
        match hexVal h1, hexVal h2, hexVal h3, hexVal h4 with
        | some a, some b, some c1, some d =>
          match jstrAux rest3 with
          | some (s, r) => some (Char.ofNat (((a * 16 + b) * 16 + c1) * 16 + d) :: s, r)
          | none => none
        | _, _, _, _ => none
      | e :: rest2 =>
        let dec : Option Char :=
          if e = dquote then some dquote
          else if e = '\\' then some '\\'
          else if e = '/' then some '/'
          else if e = 'n' then some '\n'
          else if e = 't' then some '\t'
          else if e = 'r' then some '\r'
          else if e = 'b' then some (Char.ofNat 8)
          else if e = 'f' then some (Char.ofNat 12)
          else none
        match dec with
        | some ch =>
          match jstrAux rest2 with
          | some (s, r) => some (ch :: s, r)
          | none => none
        | none => none
      | [] => none
    else
      match jstrAux rest with
      | some (s, r) => some (c :: s, r)
      | none => none

/-- Digit-list value. -/

def digitsToNat (ds : List Char) : Nat :=
  ds.foldl (fun a c => a * 10 + (c.toNat - 48)) 0

/-- JSON number scanner; the numeric value is modelled by its integer part
(the claims exercise no JSON numbers). -/

def jnumAux (l : List Char) : Option (Json × List Char) :=
  let neg := startsWithL "-".data l
  let l1 := if neg then l.drop 1 else l
  let ds := l1.takeWhile isAsciiDigit
  if ds.isEmpty then none
  else
    let r0 := l1.dropWhile isAsciiDigit
    let r1 :=
      match r0 with
      | '.' :: t => if (t.takeWhile isAsciiDigit).isEmpty then r0 else t.dropWhile isAsciiDigit
      | _ => r0
    let r2 :=
      match r1 with
      | e :: t =>
        if e = 'e' || e = 'E' then
          let t1 := if startsWithL "+".data t || startsWithL "-".data t then t.drop 1 else t
          if (t1.takeWhile isAsciiDigit).isEmpty then r1 else t1.dropWhile isAsciiDigit
        else r1
      | [] => r1
    let v : Int := Int.ofNat (digitsToNat ds)
    some (Json.num (if neg then -v else v), r2)

mutual

/-- Fueled recursive-descent JSON value parser. -/

def jparseValue : Nat → List Char → Option (Json × List Char)
  | 0, _ => none
  | f + 1, l =>
    match l.dropWhile isSpaceJS with
    | [] => none
    | c :: rest =>
      if c = dquote then
        match jstrAux rest with
        | some (s, r) => some (Json.str s, r)
        | none => none
      else if c = '[' then jparseArray f rest
      else if c = lbrace then jparseObject f rest
      else if startsWithL "true".data (c :: rest) then some (Json.bool true, rest.drop 3)
      else if startsWithL "false".data (c :: rest) then some (Json.bool false, rest.drop 4)
      else if startsWithL "null".data (c :: rest) then some (Json.null, rest.drop 3)
      else jnumAux (c :: rest)

/-- Array members (input starts after `[`). -/

def jparseArray : Nat → List Char → Option (Json × List Char)
  | 0, _ => none
  | f + 1, l =>
    match l.dropWhile isSpaceJS with
    | ']' :: r => some (Json.arr [], r)
    | l1 =>
      match jparseValue f l1 with
      | none => none
      | some (v, r) =>
        match r.dropWhile isSpaceJS with
        | ',' :: r2 =>
          match jparseArray f r2 with
          | some (Json.arr vs, r3) => some (Json.arr (v :: vs), r3)
          | _ => none
        | ']' :: r2 => some (Json.arr [v], r2)
        | _ => none

/-- Object members (input starts after the opening brace). -/

def jparseObject : Nat → List Char → Option (Json × List Char)
  | 0, _ => none
  | f + 1, l =>
    match l.dropWhile isSpaceJS with
    | [] => none
    | c :: r0 =>
      if c = rbrace then some (Json.obj [], r0)
      else if c = dquote then
        match jstrAux r0 with
        | some (k, r1) =>
          match r1.dropWhile isSpaceJS with
          | ':' :: r2 =>
            match jparseValue f r2 with
            | some (v, r3) =>
              match r3.dropWhile isSpaceJS with
              | ',' :: r4 =>
                match jparseObject f r4 with
                | some (Json.obj ms, r5) => some (Json.obj ((k, v) :: ms), r5)
                | _ => none
              | c2 :: r4 => if c2 = rbrace then some (Json.obj [(k, v)], r4) else none
              | [] => none
            | none => none
          | _ => none
        | none => none
      else none

end

/-- Modelled from the spec: the `JSON.parse` builtin used by the Content
JSON-array-of-blocks heuristic of the Content Classifier ("try to parse as the
structured-block variant; on structural mismatch or parse failure, fall back"). -/

def jsonParseL (l : List Char) : Option Json :=
  match jparseValue (2 * l.length + 8) l with
  | some (v, r) => if (r.dropWhile isSpaceJS).isEmpty then some v else none
  | none => none

/-- JavaScript truthiness of a JSON value. -/

def jsonTruthy : Json → Bool
  | .null => false
  | .bool b => b
  | .num n => decide (n ≠ 0)
  | .str s => !s.isEmpty
  | .arr _ => true
  | .obj _ => true

/-- JavaScript property access on a parsed JSON value; a missing property
(`undefined`) is modelled by `Json.null` (both are falsy, and the claims
never display a missing property). -/

def jsonGet (j : Json) (key : List Char) : Json :=
  match j with
  | .obj ms =>
    match ms.find? (fun m => m.1 = key) with
    | some m => m.2
    | none => .null
  | _ => .null

/-- Template-literal interpolation of a JSON value (`String(v)`). -/

def jsToStringL : Json → List Char
  | .str s => s
  | .num n => (toString n).data
  | .bool b => if b then "true".data else "false".data
  | .null => "null".data
  | .arr _ => []
  | .obj _ => "[object Object]".data

/-- Embedding of the per-line headline promotion
(`/^(headline|Headline):\s*(.*)$/` replaced by `<h3>…</h3>`,
src/utils/index.ts:128-139 and 173-185). -/

def headlineLine (line : List Char) : List Char :=
  if startsWithL "headline:".data line || startsWithL "Headline:".data line then
    "<h3>".data ++ trimL (line.drop 9) ++ "</h3>".data
  else line

/-- Headline promotion over a whole text: split into lines, promote, rejoin. -/

def promoteHeadlines (text : List Char) : List Char :=
  joinSep "\n".data ((splitOnChar '\n' text).map headlineLine)

/-- Rendering of one structured sub-block of a Text item
(src/utils/index.ts:120-157).  `none` models a thrown exception inside the
block map (a non-string `text` payload), which aborts the structured path. -/

def renderContentBlock (block : Json) : Option (List Char) :=
  match jsonGet block "type".data with
  | Json.str ty =>
    if ty = "text".data then
      let content := jsonGet block "content".data
      if jsonTruthy content then
        let textJ := jsonGet content "text".data
        if jsonTruthy textJ then
          match textJ with
          | Json.str text => some (markedParseL (promoteHeadlines text))
          | _ => none
        else some []
      else some []
    else if ty = "image".data then
      let content := jsonGet block "content".data
      if jsonTruthy content then
        let srcJ := jsonGet content "src".data
        if jsonTruthy srcJ then
          let captionJ := jsonGet content "caption".data
          let caption :=
            if jsonTruthy captionJ then
              "<figcaption>".data ++ jsToStringL captionJ ++ "</figcaption>".data
            else []
          let altJ := jsonGet content "alt".data
          let alt := if jsonTruthy altJ then jsToStringL altJ else []
          some ("<figure>\n                  <img src=\"".data ++ jsToStringL srcJ ++
            "\" alt=\"".data ++ alt ++ "\" />\n                  ".data ++ caption ++
            "\n                </figure>".data)
        else some []
      else some []
    else some []
  | _ => some []

/-- Rendering of all structured sub-blocks; any thrown sub-block aborts. -/

def renderContentBlocks : List Json → Option (List (List Char))
  | [] => some []
  | b :: bs =>
    match renderContentBlock b, renderContentBlocks bs with
    | some h, some t => some (h :: t)
    | _, _ => none

/-- Image payload of a content item (`item.image.display.url`). -/

structure ImageDisplay where
  url : Option String
deriving Repr, DecidableEq

/-- Image payload of a content item (`item.image`). -/

structure ImageData where
  display : Option ImageDisplay
deriving Repr, DecidableEq

/-- Link payload of a content item (`item.source`). -/

structure SourceData where
  url : Option String
deriving Repr, DecidableEq

/-- Attachment payload of a content item (`item.attachment`). -/

structure AttachmentData where
  url : Option String
deriving Repr, DecidableEq

/-- Embed payload of a content item (`item.embed`). -/

structure EmbedData where
  html : Option String
deriving Repr, DecidableEq

/-- One Are.na content item (src/types/arena-types.ts shape, restricted to
the fields the pipeline reads).  The source field `class` is a Lean keyword
and is embedded as `itemClass`. -/

structure ArenaItem where
  id : Nat
  title : Option String := none
  content : Option String := none
  description : Option String := none
  itemClass : String := ""
  image : Option ImageData := none
  source : Option SourceData := none
  attachment : Option AttachmentData := none
  embed : Option EmbedData := none
  created_at : String := ""
  updated_at : String := ""
deriving Repr, DecidableEq

/-- JavaScript truthiness of an optional string field (absent and empty are
both falsy). -/

def optTruthy (o : Option String) : Bool :=
  match o with
  | some s => !s.isEmpty
  | none => false

/-- The truthy `item.image && item.image.display && item.image.display.url`
chain of the Image branch, as the url it yields. -/

def jsImageDisplayUrl (item : ArenaItem) : Option String :=
  match item.image with
  | some img =>
    match img.display with
    | some d =>
      match d.url with
      | some u => if u = "" then none else some u
      | none => none
    | none => none
  | none => none

/-- Interpolation of `item.image.display?.url` in the Link branch (an absent
`display` or `url` interpolates as the text `undefined`). -/

def linkPreviewUrl (img : ImageData) : List Char :=
  match img.display with
  | none => "undefined".data
  | some d =>
    match d.url with
    | none => "undefined".data
    | some u => u.data

/-- Embedding of the `Image` branch of `processItemContent`
(src/utils/index.ts:98-104). -/

def imageBranch (item : ArenaItem) : List Char :=
  match jsImageDisplayUrl item with
  | some url =>
    "<img src=\"".data ++ url.data ++ "\" alt=\"".data ++
      (if optTruthy item.title then (item.title.getD "").data else "Arena image".data) ++
      "\" class=\"item-image\" />".data
  | none => "<div class=\"error\">Image URL not available</div>".data

/-- Embedding of the `Text` branch of `processItemContent`
(src/utils/index.ts:106-196): the JSON-array-of-blocks heuristic with
fallback to headline promotion plus markdown over the whole content. -/

def textBranch (item : ArenaItem) : List Char :=
  let processedContent := (item.content.getD "").data
  let jsonHtml :=
    if startsWithL "[".data processedContent && infixL "\"type\":".data processedContent then
      match jsonParseL processedContent with
      | some (Json.arr blocks) =>
        match renderContentBlocks blocks with
        | some rendered =>
          "<div class=\"structured-content\">".data ++ joinSep "\n".data rendered ++ "</div>".data
        | none => []
      | _ => []
    else []
  if jsonHtml.isEmpty then
    "<div class=\"text-content\">".data ++ markedParseL (promoteHeadlines processedContent) ++
      "</div>".data
  else jsonHtml

/-- Embedding of the `Link` branch of `processItemContent`
(src/utils/index.ts:198-206). -/

def linkBranch (item : ArenaItem) : List Char :=
  let srcUrl : List Char :=
    match item.source with
    | some s =>
      match s.url with
      | some u => if u = "" then "#".data else u.data
      | none => "#".data
    | none => "#".data
  let linkTitle : List Char :=
    if optTruthy item.title then (item.title.getD "").data
    else
      match item.source with
      | some s => if optTruthy s.url then (s.url.getD "").data else "Untitled Link".data
      | none => "Untitled Link".data
  "\n          <div class=\"link-content\">\n            <h3><a href=\"".data ++ srcUrl ++
    "\" target=\"_blank\" rel=\"noopener noreferrer\">".data ++ linkTitle ++
    "</a></h3>\n            ".data ++
    (if optTruthy item.description then
      "<p class=\"description\">".data ++ (item.description.getD "").data ++ "</p>".data
    else []) ++
    "\n            ".data ++
    (match item.image with
     | some img =>
       "<img src=\"".data ++ linkPreviewUrl img ++ "\" alt=\"".data ++
         (if optTruthy item.title then (item.title.getD "").data else "Link preview".data) ++
         "\" />".data
     | none => []) ++
    "\n          </div>\n        ".data

/-- Embedding of the `Attachment` branch of `processItemContent`
(src/utils/index.ts:208-219). -/

def attachmentBranch (item : ArenaItem) : List Char :=
  match item.attachment with
  | some att =>
    match att.url with
    | some u =>
      if u = "" then "<div class=\"error\">Attachment not available</div>".data
      else
        "\n            <div class=\"attachment-content\">\n              <h3>".data ++
          (if optTruthy item.title then (item.title.getD "").data else "Attachment".data) ++
          "</h3>\n              <a href=\"".data ++ u.data ++
          "\" class=\"download-link\" download>Download Attachment</a>\n            </div>\n          ".data
    | none => "<div class=\"error\">Attachment not available</div>".data
  | none => "<div class=\"error\">Attachment not available</div>".data

/-- Embedding of the `Media` branch of `processItemContent`
(src/utils/index.ts:221-232). -/

def mediaBranch (item : ArenaItem) : List Char :=
  match item.embed with
  | some em =>
    match em.html with
    | some h =>
      if h = "" then "<div class=\"error\">Media embed not available</div>".data
      else
        "\n            <div class=\"media-embed\">\n              ".data ++ h.data ++
          "\n            </div>\n          ".data
    | none => "<div class=\"error\">Media embed not available</div>".data
  | none => "<div class=\"error\">Media embed not available</div>".data

/-- Embedding of the default branch of `processItemContent`
(src/utils/index.ts:234-243). -/

def genericBranch (item : ArenaItem) : List Char :=
  "\n          <div class=\"generic-content\">\n            ".data ++
    (if optTruthy item.title then "<h3>".data ++ (item.title.getD "").data ++ "</h3>".data
     else []) ++
    "\n            ".data ++
    (if optTruthy item.content then
      "<div class=\"content\">".data ++ (item.content.getD "").data ++ "</div>".data
     else []) ++
    "\n            ".data ++
    (if optTruthy item.description then
      "<div class=\"description\">".data ++ (item.description.getD "").data ++ "</div>".data
     else []) ++
    "\n          </div>\n        ".data

/-- Embedding of `processItemContent` (src/utils/index.ts:93-252): dispatch
on the item class, then apply the external-link rewrite.  The function is
total; the surrounding try/catch of the source (which converts any thrown
exception into an inline error fragment) has no reachable throw sites in
the model beyond the structured-block fallback handled in `textBranch`. -/

def processItemContent (item : ArenaItem) : String :=
  let html : List Char :=
    if item.itemClass = "Image" then imageBranch item
    else if item.itemClass = "Text" then textBranch item
    else if item.itemClass = "Link" then linkBranch item
    else if item.itemClass = "Attachment" then attachmentBranch item
    else if item.itemClass = "Media" then mediaBranch item
    else genericBranch item
  String.mk (addTargetBlankToExternalLinksL html)

/-- Template value (`Record<string, string | number>`). -/

inductive TmplValue where
  | str : String → TmplValue
  | num : Int → TmplValue
deriving Repr, DecidableEq

/-- Interpolation `String(value || "")` of the substitution engine: a falsy
value (empty string, zero) becomes the empty string. -/

def tmplValueToString : TmplValue → String
  | .str s => s
  | .num n => if n = 0 then "" else toString n

/-- Attempt to match the token regex `{{\s*key\s*}}` at the head of the
input; returns the remainder after the match. -/

def tmplMatchToken (key l : List Char) : Option (List Char) :=
  if startsWithL [lbrace, lbrace] l then
    let r1 := (l.drop 2).dropWhile isSpaceJS
    if startsWithL key r1 then
      let r2 := (r1.drop key.length).dropWhile isSpaceJS
      if startsWithL [rbrace, rbrace] r2 then some (r2.drop 2) else none
    else none
  else none

/-- Expansion of the replacement string performed by
`String.prototype.replace` (GetSubstitution): a dollar sign followed by a
dollar sign inserts a dollar sign, by an ampersand inserts the matched
substring, by a backquote inserts the portion of the subject string before
the match, by a single quote inserts the portion after the match; the token
regex built by `renderTemplate` has no capture groups, so every other
dollar sequence (including digit references) is literal. -/

def getSubstitution : List Char → List Char → List Char → List Char → List Char
  | [], _, _, _ => []
  | [c], _, _, _ => [c]
  | c :: d :: t, m, pre, post =>
    if c = '$' then
      if d = '$' then '$' :: getSubstitution t m pre post
      else if d = '&' then m ++ getSubstitution t m pre post
      else if d = backquote then pre ++ getSubstitution t m pre post
      else if d = squote then post ++ getSubstitution t m pre post
      else c :: getSubstitution (d :: t) m pre post
    else c :: getSubstitution (d :: t) m pre post

/-- Global scan of `template.replace(new RegExp(token, "g"), value)` for one
key: at each position substitute a token match or advance one character; the
inserted text is the replacement string expanded by `getSubstitution`
against the matched token and its before/after context in the subject
(tracked by the `pre` accumulator). -/

def tmplReplaceScan : Nat → List Char → List Char → List Char → List Char → List Char
  | 0, _, _, _, l => l
  | f + 1, key, repl, pre, l =>
    match l with
    | [] => []
    | c :: rest =>
      match tmplMatchToken key (c :: rest) with
      | some r =>
        getSubstitution repl ((c :: rest).take ((c :: rest).length - r.length)) pre r ++
          tmplReplaceScan f key repl (pre ++ (c :: rest).take ((c :: rest).length - r.length)) r
      | none => c :: tmplReplaceScan f key repl (pre ++ [c]) rest

/-- Embedding of the substitution engine of `renderTemplate`
(src/unnamed/part_005:275-298, part_006:19-42): one global replace pass per
mapping entry, in entry order, with the replacement string interpreted per
`String.prototype.replace` (`getSubstitution`).  The template-file read is
modelled by the template string parameter (read failure throws before any
substitution and is outside the model). -/

def renderTemplate (template : String) (data : List (String × TmplValue)) : String :=
  String.mk
    (data.foldl
      (fun t kv => tmplReplaceScan t.length kv.1.data (tmplValueToString kv.2).data [] t)
      template.data)

/-- Slug source of an item (title, else content, else `untitled-` + id), as
computed by `createSlugMap` (src/scripts/arena.ts:88-110) and by
`renderHomePage`; the non-emptiness tests use the trimmed string but the
source passed on is untrimmed. -/

def slugSource (item : ArenaItem) : String :=
  if optTruthy item.title && !(trimL (item.title.getD "").data).isEmpty then
    item.title.getD ""
  else if optTruthy item.content && !(trimL (item.content.getD "").data).isEmpty then
    item.content.getD ""
  else "untitled-" ++ toString item.id

/-- The slug an item receives in the slug map. -/

def itemSlug (item : ArenaItem) : String :=
  generateSlug (slugSource item)

/-- One Are.na channel (title and contents). -/

structure ArenaChannel where
  title : String
  contents : Option (List ArenaItem)
  updated_at : String := ""
deriving Repr, DecidableEq

/-- Embedding of `Map.prototype.set`: an existing key keeps its position and
has its value replaced, a new key is appended. -/

def jsMapSet (m : List (String × ArenaItem)) (k : String) (v : ArenaItem) :
    List (String × ArenaItem) :=
  if m.any (fun p => p.1 = k) then m.map (fun p => if p.1 = k then (k, v) else p)
  else m ++ [(k, v)]

/-- Embedding of `Map.prototype.get`. -/

def mapGet (m : List (String × ArenaItem)) (k : String) : Option ArenaItem :=
  (m.find? (fun p => p.1 = k)).map Prod.snd

/-- Embedding of `createSlugMap` (src/scripts/arena.ts:80-117): iterate the
channel contents in order, keying each item by its generated slug. -/

def createSlugMap (channel : ArenaChannel) : List (String × ArenaItem) :=
  match channel.contents with
  | none => []
  | some items => items.foldl (fun m item => jsMapSet m (itemSlug item) item) []

/-- Two-digit number scanner. -/

def parse2 (l : List Char) : Option (Nat × List Char) :=
  match l with
  | a :: b :: r =>
    if isAsciiDigit a && isAsciiDigit b then some ((a.toNat - 48) * 10 + (b.toNat - 48), r)
    else none
  | _ => none

/-- Expected-character scanner. -/

def expectChar (c : Char) (l : List Char) : Option (List Char) :=
  match l with
  | a :: r => if a = c then some r else none
  | [] => none

/-- Packed chronological key of a timestamp; the packing is strictly
monotone in each field, so comparisons agree with chronological order. -/

def dateKey (y mo d h mi s ms : Nat) : Int :=
  Int.ofNat ((((((y * 13 + mo) * 32 + d) * 24 + h) * 60 + mi) * 60 + s) * 1000 + ms)

/-- Millisecond fragment of a timestamp (`.mmm` or nothing). -/

def parseMsPart (l : List Char) : Option (Nat × List Char) :=
  match l with
  | '.' :: a :: b :: c :: r =>
    if isAsciiDigit a && isAsciiDigit b && isAsciiDigit c then
      some (((a.toNat - 48) * 10 + (b.toNat - 48)) * 10 + (c.toNat - 48), r)
    else none
  | _ => some (0, l)

/-- Trailing part of a timestamp: empty or a literal `Z`. -/

def parseZEnd (l : List Char) : Bool :=
  match l with
  | [] => true
  | [c] => c = 'Z'
  | _ => false

/-- Time-of-day part `HH:MM:SS(.mmm)?(Z)?`. -/

def parseTimePart (l : List Char) : Option (Nat × Nat × Nat × Nat) :=
  match parse2 l with
  | none => none
  | some (h, r8) =>
    match expectChar ':' r8 with
    | none => none
    | some r9 =>
      match parse2 r9 with
      | none => none
      | some (mi, r10) =>
        match expectChar ':' r10 with
        | none => none
        | some r11 =>
          match parse2 r11 with
          | none => none
          | some (sec, r12) =>
            match parseMsPart r12 with
            | none => none
            | some (ms, r13) => if parseZEnd r13 then some (h, mi, sec, ms) else none

/-- Modelled from the spec: the parse by the `Date` builtin of the ISO-8601
timestamps delivered by the channel API ("creation and update timestamps
(ISO-8601)"); `new Date(s).getTime()` is modelled by a value that is
order-isomorphic to chronological order on the accepted shapes
`YYYY-MM-DD` and `YYYY-MM-DDTHH:MM:SS`, with optional `.mmm` and optional
`Z`. -/

def parseDateL (l : List Char) : Option Int :=
  match parse2 l with
  | none => none
  | some (y1, r1) =>
    match parse2 r1 with
    | none => none
    | some (y2, r2) =>
      match expectChar '-' r2 with
      | none => none
      | some r3 =>
        match parse2 r3 with
        | none => none
        | some (mo, r4) =>
          match expectChar '-' r4 with
          | none => none
          | some r5 =>
            match parse2 r5 with
            | none => none
            | some (d, r6) =>
              match r6 with
              | [] => some (dateKey (y1 * 100 + y2) mo d 0 0 0 0)
              | 'T' :: r7 =>
                match parseTimePart r7 with
                | none => none
                | some (h, mi, sec, ms) => some (dateKey (y1 * 100 + y2) mo d h mi sec ms)
              | _ => none

/-- String-level date parse model. -/

def parseDateM (s : String) : Option Int :=
  parseDateL s.data

/-- Embedding of `formatDate` (src/utils/index.ts:379-394); the
`toLocaleString` collaborator is modelled from the spec as an identity
presentation of the valid timestamp (an empty or unparsable string gives
the empty string, as in the source). -/

def formatDate (dateString : String) : String :=
  if dateString = "" then ""
  else
    match parseDateM dateString with
    | none => ""
    | some _ => dateString

/-- The "notes" tag sniff of `renderHomePage` (src/unnamed/part_005:369-373). -/

def hasNotesTag (item : ArenaItem) : Bool :=
  match item.description with
  | none => false
  | some d =>
    infixL "tag: notes".data (lowerL d.data) || infixL "tags: notes".data (lowerL d.data) ||
      infixL "#notes".data (lowerL d.data)

/-- Display title of an item (title, else content truncated to 50
characters, else `Untitled #id`), as computed by `renderHomePage` and
`renderItemPage` (src/unnamed/part_005:333-351). -/

def displayTitle (item : ArenaItem) : String :=
  if optTruthy item.title && !(trimL (item.title.getD "").data).isEmpty then
    item.title.getD ""
  else if optTruthy item.content && !(trimL (item.content.getD "").data).isEmpty then
    let c := item.content.getD ""
    if c.length > 50 then String.mk (c.data.take 50) ++ "..." else c
  else "Untitled #" ++ toString item.id

/-- Description-parser result of an item, with the falsy-description
fallback of the callers (src/unnamed/part_005:364-366). -/

def itemDescResult (item : ArenaItem) : DescriptionResult :=
  match item.description with
  | none => ⟨"", false⟩
  | some d => if d = "" then ⟨"", false⟩ else processItemDescription d

/-- Inline style attribute built from the colour/border extraction
(src/unnamed/part_005:378-394). -/

def styleAttribute (item : ArenaItem) : String :=
  let cr : ColourResult :=
    match item.description with
    | none => ⟨"", ""⟩
    | some d => if d = "" then ⟨"", ""⟩ else extractColourFromDescription d
  let styles : List (List Char) :=
    (if cr.backgroundColor = "" then [] else ["background-color: ".data ++ cr.backgroundColor.data]) ++
      (if cr.borderColor = "" then [] else ["border: 1px solid ".data ++ cr.borderColor.data])
  if styles.isEmpty then "" else String.mk (" style=\"".data ++ joinSep "; ".data styles ++ ";\"".data)

/-- One processed home-page entry (block html, pinned flag and the item),
as produced inside `renderHomePage` (src/unnamed/part_005:331-412). -/

structure ProcessedItem where
  html : String
  isPinned : Bool
  item : ArenaItem
deriving Repr, DecidableEq

/-- One home-page summary block (src/unnamed/part_005:332-411). -/

def homeBlock (item : ArenaItem) : ProcessedItem :=
  let dr := itemDescResult item
  let notes := hasNotesTag item
  let itemContent := if notes then processItemContent item else ""
  let slug := itemSlug item
  let html :=
    "<div class=\"content-block".data ++ (if dr.isPinned then " pinned".data else []) ++
      (if notes then " notes".data else []) ++ "\" data-id=\"".data ++
      (toString item.id).data ++ (styleAttribute item).data ++
      ">\n        <h2><a href=\"/".data ++ slug.data ++ "\">".data ++
      (displayTitle item).data ++ "</a></h2>\n        ".data ++
      (if dr.html = "" then []
       else "<div class=\"item-description\">".data ++ dr.html.data ++ "</div>".data) ++
      "\n        ".data ++
      (if notes && itemContent ≠ "" then
        "<div class=\"item-content\">".data ++ itemContent.data ++ "</div>".data
       else []) ++
      "\n        <div class=\"item-timestamps\">\n          <span class=\"created\">Created: ".data ++
      (formatDate item.created_at).data ++
      "</span>\n          <span class=\"updated\">Updated: ".data ++
      (formatDate item.updated_at).data ++ "</span>\n        </div>\n      </div>".data
  ⟨String.mk html, dr.isPinned, item⟩

/-- Chronological key used by the home-page comparator; an unparsable
timestamp is modelled as epoch 0 (in the source it yields `NaN`, making the
comparator return `NaN`, which the sort treats as no preference). -/

def dateVal (s : String) : Int :=
  (parseDateM s).getD 0

/-- Embedding of the home-page sort comparator
(src/unnamed/part_005:416-425): pinned first, then `created_at` newest
first. -/

def homeCmp (a b : ProcessedItem) : Int :=
  if a.isPinned && !b.isPinned then -1
  else if !a.isPinned && b.isPinned then 1
  else dateVal b.item.created_at - dateVal a.item.created_at

/-- Non-strict order induced by the comparator (`homeCmp a b ≤ 0` puts `a`
no later than `b`). -/

def homeLe (a b : ProcessedItem) : Bool :=
  decide (homeCmp a b ≤ 0)

/-- Stable insertion of an element into a list: placed before the first
element it compares no later than. -/

def insertOrdered (le : ProcessedItem → ProcessedItem → Bool) (x : ProcessedItem) :
    List ProcessedItem → List ProcessedItem
  | [] => [x]
  | y :: ys => if le x y then x :: y :: ys else y :: insertOrdered le x ys

/-- Stable insertion sort.  `Array.prototype.sort` with a consistent
comparator is required by the ECMAScript specification to produce the
sorted, stable permutation of its input, and that permutation is unique,
so any stable sorting algorithm is a faithful model. -/

def sortStable (le : ProcessedItem → ProcessedItem → Bool) :
    List ProcessedItem → List ProcessedItem
  | [] => []
  | x :: xs => insertOrdered le x (sortStable le xs)

/-- The processed home-page entries in rendered order: the source sorts the
mapped array with the comparator (src/unnamed/part_005:416-425). -/

def homeSortedProcessed (items : List ArenaItem) : List ProcessedItem :=
  sortStable homeLe (items.map homeBlock)

/-- The items of the home page in rendered block order. -/

def homeSortedItems (items : List ArenaItem) : List ArenaItem :=
  (homeSortedProcessed items).map (fun p => p.item)

/-- The concatenated home-page blocks (`.join("")`,
src/unnamed/part_005:428). -/

def renderHomePageBlocks (items : List ArenaItem) : String :=
  String.mk (joinSep [] ((homeSortedProcessed items).map (fun p => p.html.data)))

/-- First of the two items titled "Notes" of the collision scenario. -/

def noteItemA : ArenaItem :=
  { id := 1, title := some "Notes", itemClass := "Text", content := some "first" }

/-- Second of the two items titled "Notes" of the collision scenario. -/

def noteItemB : ArenaItem :=
  { id := 2, title := some "Notes", itemClass := "Text", content := some "second" }

/-- Channel holding the collision scenario, A inserted before B. -/

def notesChannel : ArenaChannel :=
  { title := "chan", contents := some [noteItemA, noteItemB] }

/-- Home-page ordering scenario: A is not pinned and was created on day 1. -/

def itemA7 : ArenaItem :=
  { id := 100, title := some "Alpha", itemClass := "Text", content := some "a",
    created_at := "2024-01-02T00:00:00Z" }

/-- Home-page ordering scenario: B is pinned and was created on day 0. -/

def itemB7 : ArenaItem :=
  { id := 101, title := some "Beta", itemClass := "Text", content := some "b",
    description := some "pin: top", created_at := "2024-01-01T00:00:00Z" }

/-- The slug pipeline before the length cap (`generateSlugL` is this
followed by `take 100`). -/

def slugPipelineCore (l : List Char) : List Char :=
  stripLeadingNum (trimHyphens (collapseSeps ((l.map jsToLower).filter keepChar)))

/-- A 101-character input (`a-a-…-a`) whose slug is truncated at the
100-character cap. -/

def longSlugInput : String :=
  String.mk (joinSep ['-'] (List.replicate 51 ['a']))

/-- An Image item with no display url. -/

def imageItemNoUrl : ArenaItem :=
  { id := 7, title := some "pic", itemClass := "Image",
    image := some { display := some { url := none } } }

/-- The description of the directive-parsing scenario. -/

def c4Description : String :=
  "pin: top\ntags: sky, water\nSome text here."

/-- Expected parse of the directive scenario: the tags field with the two
tag links, then the rendered prose paragraph. -/

def c4ExpectedHtml : String :=
  "<div class=\"description-field tags-field item-tags\"><span class=\"description-key\">Tags:</span> <a href=\"/#sky\" class=\"tag-link\">#sky</a> <a href=\"/#water\" class=\"tag-link\">#water</a></div>\n<div class=\"markdown-content\"><p>Some text here.</p></div>"

/-- The Text item of the structured-content scenario, whose raw content is
the JSON string `[{"type":"text","content":{"text":"headline: Title\nBody"}}]`. -/

def c6Item : ArenaItem :=
  { id := 1, itemClass := "Text",
    content := some "[\x7b\"type\":\"text\",\"content\":\x7b\"text\":\"headline: Title\\nBody\"\x7d\x7d]" }

/-- A single line indented by `n` spaces. -/

def c10Indented (n : Nat) (tail : List Char) : String :=
  String.mk (List.replicate n ' ' ++ tail)

/-- Characters are equal exactly when their code points are. -/

theorem char_eq_iff_toNat {c d : Char} : c = d ↔ c.toNat = d.toNat := by
  constructor
  · rintro rfl; rfl
  · intro h
    apply Char.eq_of_val_eq
    exact UInt32.ext h

/-- Code point of `Char.ofNat` at a valid code point. -/

theorem toNat_ofNat_of_valid {n : Nat} (h : n.isValidChar) : (Char.ofNat n).toNat = n := by
  simp only [Char.ofNat, dif_pos h]
  rfl

/-- Case analysis of `jsToLower`: an upper-case letter moves down by 32,
anything else is fixed. -/

theorem toNat_jsToLower (c : Char) :
    (isAsciiUpper c = true ∧ (jsToLower c).toNat = c.toNat + 32) ∨
      (isAsciiUpper c = false ∧ jsToLower c = c) := by
  by_cases h : isAsciiUpper c = true
  · left
    refine ⟨h, ?_⟩
    have hb : 65 ≤ c.toNat ∧ c.toNat ≤ 90 := by
      simpa [isAsciiUpper, Bool.and_eq_true, decide_eq_true_eq] using h
    have hv : (c.toNat + 32).isValidChar := Or.inl (by omega)
    simp [jsToLower, h, toNat_ofNat_of_valid hv]
  · right
    simp only [Bool.not_eq_true] at h
    simp [jsToLower, h]

/-- `jsToLower` never produces an upper-case letter. -/

theorem isAsciiUpper_jsToLower (c : Char) : isAsciiUpper (jsToLower c) = false := by
  rcases toNat_jsToLower c with ⟨h, ht⟩ | ⟨h, he⟩
  · have hb : 65 ≤ c.toNat ∧ c.toNat ≤ 90 := by
      simpa [isAsciiUpper, Bool.and_eq_true, decide_eq_true_eq] using h
    simp [isAsciiUpper, ht]
    omega
  · rw [he]; exact h

/-- Head of `collapseSeps` on a list with a non-separator head. -/

theorem collapseSeps_head_of_not_sep (d : Char) (rest : List Char)
    (h : isSepChar d = false) : (collapseSeps (d :: rest)).head? = some d := by
  cases rest with
  | nil => simp [collapseSeps, h]
  | cons e t => simp [collapseSeps, h]

/-- Every character of `collapseSeps l` is a hyphen or a non-separator
character of `l`. -/

theorem collapseSeps_mem (l : List Char) :
    ∀ c ∈ collapseSeps l, c = '-' ∨ (c ∈ l ∧ isSepChar c = false) := by
  induction l using collapseSeps.induct with
  | case1 => simp [collapseSeps]
  | case2 c hc =>
    intro x hx
    simp [collapseSeps, hc] at hx
    left; exact hx
  | case3 c hc =>
    intro x hx
    simp only [Bool.not_eq_true] at hc
    simp [collapseSeps, hc] at hx
    right
    subst hx
    exact ⟨List.mem_singleton_self _, hc⟩
  | case4 c d rest hc hd ih =>
    intro x hx
    rw [collapseSeps, if_pos hc, if_pos hd] at hx
    rcases ih x hx with h | ⟨hm, hs⟩
    · left; exact h
    · right; exact ⟨List.mem_cons_of_mem c hm, hs⟩
  | case5 c d rest hc hd ih =>
    intro x hx
    simp only [Bool.not_eq_true] at hd
    rw [collapseSeps, if_pos hc, if_neg (by simp [hd])] at hx
    rcases List.mem_cons.mp hx with rfl | hx2
    · left; rfl
    · rcases ih x hx2 with h | ⟨hm, hs⟩
      · left; exact h
      · right; exact ⟨List.mem_cons_of_mem c hm, hs⟩
  | case6 c d rest hc ih =>
    intro x hx
    simp only [Bool.not_eq_true] at hc
    rw [collapseSeps, if_neg (by simp [hc])] at hx
    rcases List.mem_cons.mp hx with rfl | hx2
    · right; exact ⟨List.mem_cons_self x _, hc⟩
    · rcases ih x hx2 with h | ⟨hm, hs⟩
      · left; exact h
      · right; exact ⟨List.mem_cons_of_mem c hm, hs⟩

/-- `collapseSeps` leaves no two adjacent separator characters. -/

theorem noAdjSep_collapseSeps (l : List Char) : noAdjSep (collapseSeps l) = true := by
  induction l using collapseSeps.induct with
  | case1 => simp [collapseSeps, noAdjSep]
  | case2 c hc => simp [collapseSeps, hc, noAdjSep]
  | case3 c hc =>
    simp only [Bool.not_eq_true] at hc
    simp [collapseSeps, hc, noAdjSep]
  | case4 c d rest hc hd ih =>
    rw [collapseSeps, if_pos hc, if_pos hd]
    exact ih
  | case5 c d rest hc hd ih =>
    simp only [Bool.not_eq_true] at hd
    rw [collapseSeps, if_pos hc, if_neg (by simp [hd])]
    have hh := collapseSeps_head_of_not_sep d rest hd
    cases he : collapseSeps (d :: rest) with
    | nil => simp [noAdjSep]
    | cons y ys =>
      rw [he] at hh
      simp only [List.head?_cons, Option.some.injEq] at hh
      subst hh
      rw [noAdjSep, hd]
      simp only [Bool.and_false, Bool.not_false, Bool.true_and]
      rw [← he]
      exact ih
  | case6 c d rest hc ih =>
    simp only [Bool.not_eq_true] at hc
    rw [collapseSeps, if_neg (by simp [hc])]
    cases he : collapseSeps (d :: rest) with
    | nil => simp [noAdjSep]
    | cons y ys =>
      rw [noAdjSep, hc]
      simp only [Bool.false_and, Bool.not_false, Bool.true_and]
      rw [← he]
      exact ih

/-- Adjacent separators are in particular adjacent hyphens. -/

theorem noHyphenRun_of_noAdjSep (l : List Char) (h : noAdjSep l = true) :
    noHyphenRun l = true := by
  induction l using noHyphenRun.induct with
  | case1 => rfl
  | case2 => rfl
  | case3 a b rest ih =>
    rw [noAdjSep] at h
    rw [noHyphenRun]
    simp only [Bool.and_eq_true, Bool.not_eq_true'] at h ⊢
    constructor
    · rcases Bool.and_eq_false_iff.mp h.1 with hs | hs
      · apply Bool.and_eq_false_iff.mpr
        left
        apply decide_eq_false
        intro he
        rw [he] at hs
        simp [isSepChar, isSpaceJS] at hs
      · apply Bool.and_eq_false_iff.mpr
        right
        apply decide_eq_false
        intro he
        rw [he] at hs
        simp [isSepChar, isSpaceJS] at hs
    · exact ih h.2

/-- The tail of a hyphen-run-free list is hyphen-run-free. -/

theorem noHyphenRun_tail (a : Char) (t : List Char) (h : noHyphenRun (a :: t) = true) :
    noHyphenRun t = true := by
  cases t with
  | nil => rfl
  | cons b rest =>
    rw [noHyphenRun, Bool.and_eq_true] at h
    exact h.2

/-- `dropWhile` preserves freedom from hyphen runs. -/

theorem noHyphenRun_dropWhile (p : Char → Bool) (l : List Char)
    (h : noHyphenRun l = true) : noHyphenRun (l.dropWhile p) = true := by
  induction l with
  | nil => exact h
  | cons a t ih =>
    rw [List.dropWhile_cons]
    split
    · exact ih (noHyphenRun_tail a t h)
    · exact h

/-- The head of `dropWhile p` fails `p`. -/

theorem head?_dropWhile_not (p : Char → Bool) (l : List Char) (c : Char)
    (h : (l.dropWhile p).head? = some c) : p c = false := by
  induction l with
  | nil => simp at h
  | cons a t ih =>
    rw [List.dropWhile_cons] at h
    by_cases hp : p a = true
    · rw [if_pos hp] at h
      exact ih h
    · simp only [hp, if_neg, Bool.false_eq_true, not_false_iff, if_false] at h
      simp only [List.head?_cons, Option.some.injEq] at h
      subst h
      exact Bool.not_eq_true _ |>.mp hp

/-- A non-empty `dropWhile p` has the last element of the input. -/

theorem getLast?_dropWhile_ne (p : Char → Bool) (l : List Char)
    (h : l.dropWhile p ≠ []) : (l.dropWhile p).getLast? = l.getLast? := by
  induction l with
  | nil => simp at h
  | cons a t ih =>
    rw [List.dropWhile_cons]
    by_cases hp : p a = true
    · rw [List.dropWhile_cons, if_pos hp] at h
      have ht : t ≠ [] := by
        intro he
        rw [he] at h
        simp at h
      rw [if_pos hp, ih h]
      cases t with
      | nil => exact absurd rfl ht
      | cons b u => rw [List.getLast?_cons_cons]
    · simp only [hp, Bool.false_eq_true, not_false_iff, if_false, if_neg]

/-- Characters of `dropTrailingHyphens` come from its input. -/

theorem dropTrailingHyphens_mem (l : List Char) :
    ∀ c ∈ dropTrailingHyphens l, c ∈ l := by
  induction l with
  | nil => simp [dropTrailingHyphens]
  | cons a t ih =>
    intro x hx
    rw [dropTrailingHyphens] at hx
    split at hx
    · simp at hx
    · rcases List.mem_cons.mp hx with rfl | hx2
      · exact List.mem_cons_self _ _
      · exact List.mem_cons_of_mem a (ih x hx2)

/-- A non-empty `dropTrailingHyphens` keeps the head of its input. -/

theorem dropTrailingHyphens_head (l : List Char) (h : dropTrailingHyphens l ≠ []) :
    (dropTrailingHyphens l).head? = l.head? := by
  cases l with
  | nil => simp [dropTrailingHyphens]
  | cons a t =>
    rw [dropTrailingHyphens]
    rw [dropTrailingHyphens] at h
    split at h
    · exact absurd rfl h
    · rename_i hcond
      rw [if_neg hcond]
      simp

/-- `dropTrailingHyphens` never ends with a hyphen. -/

theorem dropTrailingHyphens_getLast (l : List Char) :
    (dropTrailingHyphens l).getLast? ≠ some '-' := by
  induction l with
  | nil => simp [dropTrailingHyphens]
  | cons a t ih =>
    rw [dropTrailingHyphens]
    split
    · simp
    · rename_i hcond
      cases he : dropTrailingHyphens t with
      | nil =>
        have ha : ¬(a = '-') := by
          intro rfla
          apply hcond
          rw [rfla, he]
          simp
        simp only [List.getLast?_singleton, Ne, Option.some.injEq]
        exact ha
      | cons y ys =>
        rw [List.getLast?_cons_cons]
        rw [he] at ih
        exact ih

/-- `dropTrailingHyphens` preserves freedom from hyphen runs. -/

theorem dropTrailingHyphens_noHyphenRun (l : List Char) (h : noHyphenRun l = true) :
    noHyphenRun (dropTrailingHyphens l) = true := by
  induction l with
  | nil => exact h
  | cons a t ih =>
    rw [dropTrailingHyphens]
    split
    · rfl
    · rename_i hcond
      have hr := ih (noHyphenRun_tail a t h)
      cases he : dropTrailingHyphens t with
      | nil => rfl
      | cons y ys =>
        rw [he] at hr
        have hhead : (dropTrailingHyphens t).head? = t.head? := by
          apply dropTrailingHyphens_head
          rw [he]
          simp
        rw [he] at hhead
        cases t with
        | nil => simp [dropTrailingHyphens] at he
        | cons b u =>
          simp only [List.head?_cons, Option.some.injEq] at hhead
          subst hhead
          rw [noHyphenRun, Bool.and_eq_true]
          refine ⟨?_, hr⟩
          rw [noHyphenRun, Bool.and_eq_true] at h
          exact h.1

/-- `dropTrailingHyphens` fixes a list that does not end with a hyphen. -/

theorem dropTrailingHyphens_eq_self (l : List Char) (h : l.getLast? ≠ some '-') :
    dropTrailingHyphens l = l := by
  induction l with
  | nil => rfl
  | cons a t ih =>
    rw [dropTrailingHyphens]
    cases t with
    | nil =>
      simp only [List.getLast?_singleton, Ne, Option.some.injEq] at h
      rw [dropTrailingHyphens]
      simp only [List.isEmpty_nil, Bool.and_true]
      rw [if_neg (by simpa using h)]
    | cons b u =>
      rw [List.getLast?_cons_cons] at h
      rw [ih h]
      simp

/-- Case analysis of `stripLeadingNum`: either the identity, or the tail
after the leading digit run and its following separator. -/

theorem stripLeadingNum_cases (l : List Char) :
    stripLeadingNum l = l ∨
      ∃ c t, l.dropWhile isAsciiDigit = c :: t ∧ stripLeadingNum l = t ∧
        (c = '_' ∨ c = '-') := by
  by_cases hd : (l.takeWhile isAsciiDigit).isEmpty = true
  · left; simp [stripLeadingNum, hd]
  · cases he : l.dropWhile isAsciiDigit with
    | nil => left; simp [stripLeadingNum, hd, he]
    | cons c t =>
      by_cases hc : (c = '_' || c = '-') = true
      · right
        exact ⟨c, t, rfl, by simp [stripLeadingNum, hd, he, hc], by simpa using hc⟩
      · left; simp [stripLeadingNum, hd, he, hc]

/-- A prefix of a hyphen-run-free list is hyphen-run-free. -/

theorem noHyphenRun_take (n : Nat) (l : List Char) (h : noHyphenRun l = true) :
    noHyphenRun (l.take n) = true := by
  induction l using noHyphenRun.induct generalizing n with
  | case1 => simp [noHyphenRun]
  | case2 a =>
    cases n with
    | zero => rfl
    | succ m => simp [List.take, noHyphenRun]
  | case3 a b rest ih =>
    match n with
    | 0 => rfl
    | 1 => simp [List.take, noHyphenRun]
    | m + 2 =>
      rw [noHyphenRun, Bool.and_eq_true] at h
      show noHyphenRun (a :: b :: rest.take m) = true
      rw [noHyphenRun, Bool.and_eq_true]
      refine ⟨h.1, ?_⟩
      have := ih (m + 1) h.2
      simpa [List.take] using this

/-- `generateSlugL` is the capped core pipeline. -/

theorem generateSlugL_eq (l : List Char) : generateSlugL l = (slugPipelineCore l).take 100 := rfl

/-- A kept, non-upper-case character is alphanumeric or a separator. -/

theorem slugChar_of_keepChar_not_upper (c : Char) (hk : keepChar c = true)
    (hu : isAsciiUpper c = false) : (isSlugAlnum c || isSepChar c) = true := by
  simp only [keepChar, isWordChar, isSlugAlnum, isSepChar, isSpaceJS, isAsciiUpper,
    isAsciiLower, isAsciiDigit, Bool.or_eq_true, Bool.and_eq_true, decide_eq_true_eq,
    Bool.or_eq_false_iff, Bool.and_eq_false_iff, decide_eq_false_iff_not, not_and, not_le] at *
  omega

/-- An alphanumeric slug character is not a separator. -/

theorem slugAlnum_not_sep (c : Char) (h : isSlugAlnum c = true) : isSepChar c = false := by
  simp only [isSlugAlnum, isSepChar, isSpaceJS, isAsciiLower, isAsciiDigit, Bool.or_eq_true,
    Bool.and_eq_true, decide_eq_true_eq, Bool.or_eq_false_iff, Bool.and_eq_false_iff,
    decide_eq_false_iff_not] at *
  omega

/-- Every character of the filtered, lower-cased text is alphanumeric or a
separator. -/

theorem filtered_chars (l : List Char) :
    ∀ c ∈ (l.map jsToLower).filter keepChar, (isSlugAlnum c || isSepChar c) = true := by
  intro c hc
  rw [List.mem_filter] at hc
  obtain ⟨hm, hk⟩ := hc
  rw [List.mem_map] at hm
  obtain ⟨d, _, rfl⟩ := hm
  exact slugChar_of_keepChar_not_upper _ hk (isAsciiUpper_jsToLower d)

/-- Invariant of the slug pipeline before the length cap: characters are
lower-case alphanumerics or hyphens, the result neither starts nor ends
with a hyphen, and there is no hyphen run. -/

theorem slugCore_invariant (l : List Char) :
    (∀ c ∈ slugPipelineCore l, (isSlugAlnum c || c.toNat = 45) = true) ∧
      (slugPipelineCore l).head? ≠ some '-' ∧
      (slugPipelineCore l).getLast? ≠ some '-' ∧
      noHyphenRun (slugPipelineCore l) = true := by
  have h2mem : ∀ c ∈ collapseSeps ((l.map jsToLower).filter keepChar),
      (isSlugAlnum c || c.toNat = 45) = true := by
    intro c hc
    rcases collapseSeps_mem _ c hc with rfl | ⟨hm, hs⟩
    · simp
    · have hck := filtered_chars l c hm
      rcases Bool.or_eq_true_iff.mp hck with ha | hsep
      · simp [ha]
      · rw [hsep] at hs
        exact absurd hs (by simp)
  have h2run : noHyphenRun (collapseSeps ((l.map jsToLower).filter keepChar)) = true :=
    noHyphenRun_of_noAdjSep _ (noAdjSep_collapseSeps _)
  have h3mem : ∀ c ∈ trimHyphens (collapseSeps ((l.map jsToLower).filter keepChar)),
      (isSlugAlnum c || c.toNat = 45) = true := by
    intro c hc
    have hm := dropTrailingHyphens_mem _ c hc
    exact h2mem c (List.Sublist.mem hm (List.dropWhile_sublist _))
  have h3run : noHyphenRun (trimHyphens (collapseSeps ((l.map jsToLower).filter keepChar))) = true :=
    dropTrailingHyphens_noHyphenRun _ (noHyphenRun_dropWhile _ _ h2run)
  have h3last : (trimHyphens (collapseSeps ((l.map jsToLower).filter keepChar))).getLast? ≠ some '-' :=
    dropTrailingHyphens_getLast _
  have h3head : (trimHyphens (collapseSeps ((l.map jsToLower).filter keepChar))).head? ≠ some '-' := by
    intro heq
    have hne : trimHyphens (collapseSeps ((l.map jsToLower).filter keepChar)) ≠ [] := by
      intro h0
      rw [h0] at heq
      simp at heq
    have := dropTrailingHyphens_head _ hne
    rw [trimHyphens] at heq
    rw [this] at heq
    have := head?_dropWhile_not _ _ _ heq
    simp at this
  rcases stripLeadingNum_cases (trimHyphens (collapseSeps ((l.map jsToLower).filter keepChar)))
    with hid | ⟨c, t, hdw, hres, hcs⟩
  · rw [slugPipelineCore, hid]
    exact ⟨h3mem, h3head, h3last, h3run⟩
  · have hdsub := List.dropWhile_sublist (l := trimHyphens (collapseSeps ((l.map jsToLower).filter keepChar))) isAsciiDigit
    have hcmem : c ∈ trimHyphens (collapseSeps ((l.map jsToLower).filter keepChar)) := by
      apply List.Sublist.mem _ hdsub
      rw [hdw]
      exact List.mem_cons_self _ _
    have hcchar := h3mem c hcmem
    have hch : c = '-' := by
      rcases hcs with rfl | rfl
      · exact absurd hcchar (by simp [isSlugAlnum, isAsciiLower, isAsciiDigit])
      · rfl
    subst hch
    have hdrun : noHyphenRun ('-' :: t) = true := by
      rw [← hdw]
      exact noHyphenRun_dropWhile _ _ h3run
    refine ⟨?_, ?_, ?_, ?_⟩
    · intro x hx
      apply h3mem
      apply List.Sublist.mem _ hdsub
      rw [hdw, slugPipelineCore, hres] at *
      exact List.mem_cons_of_mem _ hx
    · rw [slugPipelineCore, hres]
      cases t with
      | nil => simp
      | cons x u =>
        rw [noHyphenRun, Bool.and_eq_true] at hdrun
        have hx : ¬(x = '-') := by
          have := hdrun.1
          simp only [Bool.not_eq_true'] at this
          rcases Bool.and_eq_false_iff.mp this with h | h
          · simp at h
          · simpa using h
        simp only [List.head?_cons, Ne, Option.some.injEq]
        exact hx
    · rw [slugPipelineCore, hres]
      cases t with
      | nil => simp
      | cons x u =>
        have hne : List.dropWhile isAsciiDigit
            (trimHyphens (collapseSeps ((l.map jsToLower).filter keepChar))) ≠ [] := by
          rw [hdw]; simp
        have hgl := getLast?_dropWhile_ne _ _ hne
        rw [hdw] at hgl
        rw [List.getLast?_cons_cons] at hgl
        rw [hgl]
        exact h3last
    · rw [slugPipelineCore, hres]
      exact noHyphenRun_tail _ _ hdrun

/-- Invariant of `generateSlugL`: at most 100 characters, all lower-case
alphanumeric or hyphen, no leading hyphen, no hyphen run, and a trailing
hyphen only when the output was truncated at exactly 100 characters. -/

theorem generateSlugL_invariant (l : List Char) :
    (generateSlugL l).length ≤ 100 ∧
      (∀ c ∈ generateSlugL l, (isSlugAlnum c || c.toNat = 45) = true) ∧
      (generateSlugL l).head? ≠ some '-' ∧
      noHyphenRun (generateSlugL l) = true ∧
      ((generateSlugL l).getLast? ≠ some '-' ∨ (generateSlugL l).length = 100) := by
  obtain ⟨hmem, hhead, hlast, hrun⟩ := slugCore_invariant l
  rw [generateSlugL_eq]
  refine ⟨?_, ?_, ?_, ?_, ?_⟩
  · rw [List.length_take]
    exact inf_le_left
  · intro c hc
    exact hmem c (List.Sublist.mem hc (List.take_sublist _ _))
  · rw [List.head?_take]
    simp only [if_neg (by norm_num : ¬(100 = 0))]
    exact hhead
  · exact noHyphenRun_take _ _ hrun
  · by_cases hlen : (slugPipelineCore l).length ≤ 100
    · left
      rw [List.take_of_length_le hlen]
      exact hlast
    · right
      rw [List.length_take]
      omega

/-- A slug character (lower-case alphanumeric or hyphen) is not upper-case. -/

theorem slugChar_not_upper (c : Char) (h : (isSlugAlnum c || c.toNat = 45) = true) :
    isAsciiUpper c = false := by
  simp only [isSlugAlnum, isAsciiLower, isAsciiDigit, isAsciiUpper, Bool.or_eq_true,
    Bool.and_eq_true, decide_eq_true_eq, Bool.and_eq_false_iff,
    decide_eq_false_iff_not, not_le] at *
  omega

/-- A slug character is kept by the non-word-character removal. -/

theorem slugChar_keep (c : Char) (h : (isSlugAlnum c || c.toNat = 45) = true) :
    keepChar c = true := by
  simp only [isSlugAlnum, isAsciiLower, isAsciiDigit, keepChar, isWordChar, isAsciiUpper,
    isSpaceJS, Bool.or_eq_true, Bool.and_eq_true, decide_eq_true_eq] at *
  omega

/-- A slug character is not an underscore. -/

theorem slugChar_ne_underscore (c : Char) (h : (isSlugAlnum c || c.toNat = 45) = true) :
    c ≠ '_' := by
  intro he
  subst he
  simp [isSlugAlnum, isAsciiLower, isAsciiDigit] at h

/-- Lower-casing fixes a list of slug characters. -/

theorem map_jsToLower_eq_self (l : List Char)
    (h : ∀ c ∈ l, (isSlugAlnum c || c.toNat = 45) = true) : l.map jsToLower = l := by
  induction l with
  | nil => rfl
  | cons a t ih =>
    rw [List.map_cons]
    rw [ih (fun c hc => h c (List.mem_cons_of_mem a hc))]
    have : jsToLower a = a := by
      rw [jsToLower, if_neg]
      rw [slugChar_not_upper a (h a (List.mem_cons_self a t))]
      simp
    rw [this]

/-- Filtering fixes a list of slug characters. -/

theorem filter_keepChar_eq_self (l : List Char)
    (h : ∀ c ∈ l, (isSlugAlnum c || c.toNat = 45) = true) : l.filter keepChar = l :=
  List.filter_eq_self.mpr (fun c hc => slugChar_keep c (h c hc))

/-- Separator collapsing fixes a hyphen-run-free list of slug characters. -/

theorem collapseSeps_eq_self (l : List Char)
    (hmem : ∀ c ∈ l, (isSlugAlnum c || c.toNat = 45) = true)
    (hrun : noHyphenRun l = true) : collapseSeps l = l := by
  induction l using collapseSeps.induct with
  | case1 => rfl
  | case2 c hc =>
    have hch : c = '-' := by
      rcases Bool.or_eq_true_iff.mp (hmem c (List.mem_cons_self c [])) with ha | h45
    
      · rw [slugAlnum_not_sep c ha] at hc
        exact absurd hc (by simp)
      · rw [char_eq_iff_toNat]
        simpa using h45
    rw [collapseSeps, if_pos hc, hch]
  | case3 c hc =>
    simp only [Bool.not_eq_true] at hc
    rw [collapseSeps, if_neg (by simp [hc])]
  | case4 c d rest hc hd ih =>
    have hch : c = '-' := by
      rcases Bool.or_eq_true_iff.mp (hmem c (List.mem_cons_self c _)) with ha | h45
      · rw [slugAlnum_not_sep c ha] at hc
        exact absurd hc (by simp)
      · rw [char_eq_iff_toNat]
        simpa using h45
    have hdh : d = '-' := by
      rcases Bool.or_eq_true_iff.mp (hmem d (List.mem_cons_of_mem c (List.mem_cons_self d rest)))
        with ha | h45
      · rw [slugAlnum_not_sep d ha] at hd
        exact absurd hd (by simp)
      · rw [char_eq_iff_toNat]
        simpa using h45
    subst hch hdh
    rw [noHyphenRun] at hrun
    simp at hrun
  | case5 c d rest hc hd ih =>
    have hch : c = '-' := by
      rcases Bool.or_eq_true_iff.mp (hmem c (List.mem_cons_self c _)) with ha | h45
      · rw [slugAlnum_not_sep c ha] at hc
        exact absurd hc (by simp)
      · rw [char_eq_iff_toNat]
        simpa using h45
    rw [collapseSeps, if_pos hc, if_neg (by simp [hd])]
    rw [ih (fun x hx => hmem x (List.mem_cons_of_mem c hx)) (noHyphenRun_tail _ _ hrun), hch]
  | case6 c d rest hc ih =>
    rw [collapseSeps, if_neg hc]
    rw [ih (fun x hx => hmem x (List.mem_cons_of_mem c hx)) (noHyphenRun_tail _ _ hrun)]

/-- Leading-hyphen removal fixes a list that does not start with a hyphen. -/

theorem dropWhile_hyphen_eq_self (l : List Char) (h : l.head? ≠ some '-') :
    l.dropWhile (fun c => c = '-') = l := by
  cases l with
  | nil => rfl
  | cons a t =>
    simp only [List.head?_cons, Ne, Option.some.injEq] at h
    rw [List.dropWhile_cons, if_neg (by simpa using h)]

/-- The leading-digit strip fixes a list of slug characters that does not
start with a digit run followed by a hyphen. -/

theorem stripLeadingNum_eq_self (l : List Char)
    (hmem : ∀ c ∈ l, (isSlugAlnum c || c.toNat = 45) = true)
    (h : startsDigitsHyphen l = false) : stripLeadingNum l = l := by
  by_cases hd : (l.takeWhile isAsciiDigit).isEmpty = true
  · simp [stripLeadingNum, hd]
  · have hhd : ¬((l.dropWhile isAsciiDigit).head? = some '-') := by
      rw [startsDigitsHyphen] at h
      rcases Bool.and_eq_false_iff.mp h with h1 | h2
      · rw [Bool.not_eq_false'] at h1
        exact absurd h1 hd
      · simpa using h2
    cases he : l.dropWhile isAsciiDigit with
    | nil => simp [stripLeadingNum, hd, he]
    | cons c t =>
      have hcm : c ∈ l := by
        apply List.Sublist.mem _ (List.dropWhile_sublist isAsciiDigit)
        rw [he]
        exact List.mem_cons_self _ _
      have hcu : c ≠ '_' := slugChar_ne_underscore c (hmem c hcm)
      have hcy : c ≠ '-' := by
        intro rflc
        apply hhd
        rw [he, rflc]
        rfl
      simp [stripLeadingNum, hd, he, hcu, hcy]

/-- Amended idempotence core: the slug pipeline fixes any slug output that
neither starts with a digit run followed by a hyphen nor ends with a
hyphen. -/

theorem generateSlugL_fix (r : List Char)
    (hmem : ∀ c ∈ r, (isSlugAlnum c || c.toNat = 45) = true)
    (hrun : noHyphenRun r = true)
    (hhead : r.head? ≠ some '-')
    (hlen : r.length ≤ 100)
    (h1 : startsDigitsHyphen r = false)
    (h2 : r.getLast? ≠ some '-') : generateSlugL r = r := by
  rw [generateSlugL]
  rw [map_jsToLower_eq_self r hmem]
  rw [filter_keepChar_eq_self r hmem]
  rw [collapseSeps_eq_self r hmem hrun]
  rw [trimHyphens]
  rw [dropWhile_hyphen_eq_self r hhead]
  rw [dropTrailingHyphens_eq_self r h2]
  rw [stripLeadingNum_eq_self r hmem h1]
  exact List.take_of_length_le hlen

/-- C1: the claim as stated is false: `generateSlug` maps the empty string
to the empty string (neither non-empty nor a match of
`^[a-z0-9]+(-[a-z0-9]+)*$`), and the 100-character truncation can leave a
trailing hyphen, so a non-empty output need not match the pattern either. -/

theorem c1_slug_pattern_counterexample :
    generateSlug "" = "" ∧
      matchesSlugPattern (generateSlug "").data = false ∧
      (generateSlug longSlugInput).data.getLast? = some '-' ∧
      matchesSlugPattern (generateSlug longSlugInput).data = false := by
  refine ⟨by decide, by decide, by decide, by decide⟩

/-- C1 (amended): for every input text, `generateSlug` is total and returns
a string of length at most 100 whose characters are lower-case
alphanumerics or hyphens, with no leading hyphen and no hyphen run; the
output may be empty, and it can end in a hyphen only when it was truncated
at exactly the 100-character cap (so any non-empty output that is not a
truncation artefact matches `^[a-z0-9]+(-[a-z0-9]+)*$`). -/

theorem c1_slug_output_invariant (s : String) :
    (generateSlug s).length ≤ 100 ∧
      (∀ c ∈ (generateSlug s).data, (isSlugAlnum c || c.toNat = 45) = true) ∧
      (generateSlug s).data.head? ≠ some '-' ∧
      noHyphenRun (generateSlug s).data = true ∧
      ((generateSlug s).data.getLast? ≠ some '-' ∨ (generateSlug s).length = 100) :=
  generateSlugL_invariant s.data

/-- C1 witness: the invariant evaluated on a concrete input. -/

theorem c1_slug_output_invariant_witness :
    (generateSlug "Hello, World!").length ≤ 100 ∧
      (isSlugAlnum 'h' || 'h'.toNat = 45) = true ∧
      (generateSlug "Hello, World!").data.head? ≠ some '-' ∧
      noHyphenRun (generateSlug "Hello, World!").data = true ∧
      ((generateSlug "Hello, World!").data.getLast? ≠ some '-' ∨
        (generateSlug "Hello, World!").length = 100) :=
  ⟨(c1_slug_output_invariant "Hello, World!").1,
   (c1_slug_output_invariant "Hello, World!").2.1 'h' (by decide),
   (c1_slug_output_invariant "Hello, World!").2.2.1,
   (c1_slug_output_invariant "Hello, World!").2.2.2.1,
   (c1_slug_output_invariant "Hello, World!").2.2.2.2⟩

/-- C2: the claim as stated is false: the non-empty input `12-3-abc` has
slug `3-abc`, whose re-slug strips the leading digit run again, giving
`abc`. -/

theorem c2_idempotence_counterexample :
    ("12-3-abc" : String) ≠ "" ∧
      generateSlug (generateSlug "12-3-abc") ≠ generateSlug "12-3-abc" := by
  refine ⟨by decide, by decide⟩

/-- C2 (amended): `generateSlug` is idempotent on every (non-empty) input
whose slug does not again start with a digit run followed by a hyphen and
does not end with a truncation hyphen. -/

theorem c2_idempotent_of_no_restrip (x : String) (_hx : x ≠ "")
    (h1 : startsDigitsHyphen (generateSlug x).data = false)
    (h2 : (generateSlug x).data.getLast? ≠ some '-') :
    generateSlug (generateSlug x) = generateSlug x := by
  have hinv := generateSlugL_invariant x.data
  have hfix : generateSlugL (generateSlug x).data = (generateSlug x).data :=
    generateSlugL_fix _ hinv.2.1 hinv.2.2.2.1 hinv.2.2.1 hinv.1 h1 h2
  show String.mk (generateSlugL (generateSlug x).data) = generateSlug x
  rw [hfix]

/-- C2 witness: idempotence evaluated on a concrete input. -/

theorem c2_idempotent_witness :
    ("hello world" : String) ≠ "" ∧
      startsDigitsHyphen (generateSlug "hello world").data = false ∧
      (generateSlug "hello world").data.getLast? ≠ some '-' ∧
      generateSlug (generateSlug "hello world") = generateSlug "hello world" :=
  ⟨by decide, by decide, by decide,
   c2_idempotent_of_no_restrip "hello world" (by decide) (by decide) (by decide)⟩

/-- `find?` for another key is unaffected by a value replacement. -/

theorem find?_replace_other (m : List (String × ArenaItem)) (k k' : String) (v : ArenaItem)
    (h : k' ≠ k) :
    (m.map (fun p => if p.1 = k then (k, v) else p)).find? (fun p => decide (p.1 = k')) =
      m.find? (fun p => decide (p.1 = k')) := by
  induction m with
  | nil => rfl
  | cons p rest ih =>
    rw [List.map_cons, List.find?_cons, List.find?_cons]
    by_cases hp : p.1 = k
    · have h1 : (decide ((if p.1 = k then (k, v) else p).1 = k')) = false := by
        rw [if_pos hp]
        simp only [decide_eq_false_iff_not]
        exact fun he => h he.symm
      have h2 : (decide (p.1 = k')) = false := by
        simp only [decide_eq_false_iff_not]
        rw [hp]
        exact fun he => h he.symm
      rw [h1, h2]
      exact ih
    · have h1 : (if p.1 = k then (k, v) else p) = p := if_neg hp
      rw [h1]
      cases hd : (decide (p.1 = k')) with
      | true => rfl
      | false => exact ih

/-- `find?` for the replaced key yields the new entry. -/

theorem find?_replace_self (m : List (String × ArenaItem)) (k : String) (v : ArenaItem)
    (h : m.any (fun p => decide (p.1 = k)) = true) :
    (m.map (fun p => if p.1 = k then (k, v) else p)).find? (fun p => decide (p.1 = k)) =
      some (k, v) := by
  induction m with
  | nil => simp at h
  | cons p rest ih =>
    rw [List.map_cons, List.find?_cons]
    by_cases hp : p.1 = k
    · rw [if_pos hp]
      simp
    · rw [if_neg hp]
      have h2 : (decide (p.1 = k)) = false := by simpa using hp
      rw [h2]
      rw [List.any_cons] at h
      rcases Bool.or_eq_true_iff.mp h with h3 | h3
      · rw [h2] at h3
        simp at h3
      · exact ih h3

/-- Lookup after `Map.set`: the set key yields the new value, other keys
are unaffected. -/

theorem mapGet_jsMapSet (m : List (String × ArenaItem)) (k : String) (v : ArenaItem) (k' : String) :
    mapGet (jsMapSet m k v) k' = if k' = k then some v else mapGet m k' := by
  by_cases hk : k' = k
  · subst hk
    rw [if_pos rfl, mapGet, jsMapSet]
    by_cases ha : m.any (fun p => decide (p.1 = k')) = true
    · rw [if_pos ha, find?_replace_self m k' v ha]
      rfl
    · rw [if_neg ha, List.find?_append]
      have hnone : m.find? (fun p => decide (p.1 = k')) = none := by
        rw [List.find?_eq_none]
        intro p hp
        simp only [decide_eq_true_eq]
        intro he
        exact ha (List.any_eq_true.mpr ⟨p, hp, by simpa using he⟩)
      rw [hnone]
      simp
  · rw [if_neg hk, mapGet, jsMapSet]
    by_cases ha : m.any (fun p => decide (p.1 = k)) = true
    · rw [if_pos ha, find?_replace_other m k k' v hk]
      rfl
    · rw [if_neg ha, List.find?_append]
      have h1 : List.find? (fun p => decide (p.1 = k')) [(k, v)] = none := by
        simp only [List.find?_singleton, decide_eq_true_eq]
        rw [if_neg (by exact fun he => hk he.symm)]
      rw [h1]
      simp [mapGet]

/-- Lookup after folding `Map.set` over a list of items: the last item
whose slug is the key wins, and keys no item produces fall through to the
accumulator. -/

theorem foldl_jsMapSet_get (items : List ArenaItem) (m : List (String × ArenaItem)) (k : String) :
    mapGet (items.foldl (fun acc it => jsMapSet acc (itemSlug it) it) m) k =
      match (items.filter (fun it => itemSlug it = k)).getLast? with
      | some v => some v
      | none => mapGet m k := by
  induction items generalizing m with
  | nil => simp
  | cons it rest ih =>
    rw [List.foldl_cons, ih, List.filter_cons]
    by_cases hs : itemSlug it = k
    · rw [if_pos (by simpa using hs)]
      cases hg : (rest.filter (fun x => itemSlug x = k)).getLast? with
      | some v =>
        cases hf : rest.filter (fun x => decide (itemSlug x = k)) with
        | nil =>
          rw [hf] at hg
          simp at hg
        | cons y ys =>
          rw [hf] at hg
          rw [List.getLast?_cons_cons, hg]
      | none =>
        have hnil : rest.filter (fun x => decide (itemSlug x = k)) = [] :=
          List.getLast?_eq_none_iff.mp hg
        rw [hnil]
        simp only [List.getLast?_singleton]
        rw [mapGet_jsMapSet]
        rw [if_pos hs.symm]
    · rw [if_neg (by simpa using hs)]
      cases hg : (rest.filter (fun x => itemSlug x = k)).getLast? with
      | some v => rfl
      | none =>
        rw [mapGet_jsMapSet, if_neg (fun he => hs he.symm)]

/-- A value replacement leaves the key list unchanged. -/

theorem keys_map_replace (m : List (String × ArenaItem)) (k : String) (v : ArenaItem) :
    (m.map (fun p => if p.1 = k then (k, v) else p)).map Prod.fst = m.map Prod.fst := by
  induction m with
  | nil => rfl
  | cons p rest ih =>
    simp only [List.map_cons, ih]
    by_cases hp : p.1 = k
    · rw [if_pos hp, hp]
    · rw [if_neg hp]

/-- Key membership after `Map.set`. -/

theorem mem_keys_jsMapSet (m : List (String × ArenaItem)) (k : String) (v : ArenaItem) (x : String) :
    x ∈ (jsMapSet m k v).map Prod.fst ↔ x = k ∨ x ∈ m.map Prod.fst := by
  rw [jsMapSet]
  by_cases ha : m.any (fun p => decide (p.1 = k)) = true
  · rw [if_pos ha, keys_map_replace]
    constructor
    · exact fun h => Or.inr h
    · rintro (rfl | h)
      · rcases List.any_eq_true.mp ha with ⟨p, hp, hpk⟩
        simp only [decide_eq_true_eq] at hpk
        exact hpk ▸ List.mem_map_of_mem Prod.fst hp
      · exact h
  · rw [if_neg ha, List.map_append]
    simp only [List.map_cons, List.map_nil, List.mem_append, List.mem_singleton]
    tauto

/-- `Map.set` preserves distinctness of keys. -/

theorem nodup_keys_jsMapSet (m : List (String × ArenaItem)) (k : String) (v : ArenaItem)
    (h : (m.map Prod.fst).Nodup) : ((jsMapSet m k v).map Prod.fst).Nodup := by
  rw [jsMapSet]
  by_cases ha : m.any (fun p => decide (p.1 = k)) = true
  · rw [if_pos ha, keys_map_replace]
    exact h
  · rw [if_neg ha, List.map_append]
    rw [List.nodup_append]
    refine ⟨h, by simp, ?_⟩
    intro x hx hx2
    simp only [List.map_cons, List.map_nil, List.mem_singleton] at hx2
    subst hx2
    apply ha
    rw [List.any_eq_true]
    rcases List.mem_map.mp hx with ⟨p, hp, hpk⟩
    exact ⟨p, hp, by simp [hpk]⟩

/-- The folded map has distinct keys. -/

theorem foldl_keys_nodup (items : List ArenaItem) (m : List (String × ArenaItem))
    (h : (m.map Prod.fst).Nodup) :
    ((items.foldl (fun acc it => jsMapSet acc (itemSlug it) it) m).map Prod.fst).Nodup := by
  induction items generalizing m with
  | nil => exact h
  | cons it rest ih =>
    rw [List.foldl_cons]
    exact ih _ (nodup_keys_jsMapSet m _ it h)

/-- The folded map has exactly the accumulated keys and the item slugs. -/

theorem foldl_keys_mem (items : List ArenaItem) (m : List (String × ArenaItem)) (x : String) :
    x ∈ (items.foldl (fun acc it => jsMapSet acc (itemSlug it) it) m).map Prod.fst ↔
      x ∈ m.map Prod.fst ∨ x ∈ items.map itemSlug := by
  induction items generalizing m with
  | nil => simp
  | cons it rest ih =>
    rw [List.foldl_cons, ih, mem_keys_jsMapSet]
    simp only [List.map_cons, List.mem_cons]
    tauto

/-- The folded map has one entry per distinct slug. -/

theorem foldl_length_dedup (items : List ArenaItem) :
    (items.foldl (fun acc it => jsMapSet acc (itemSlug it) it) []).length =
      ((items.map itemSlug).dedup).length := by
  set M := items.foldl (fun acc it => jsMapSet acc (itemSlug it) it) [] with hM
  have hlen : M.length = (M.map Prod.fst).length := (List.length_map M Prod.fst).symm
  have hnd : (M.map Prod.fst).Nodup := foldl_keys_nodup items [] (by simp)
  have hfin : (M.map Prod.fst).toFinset = (items.map itemSlug).toFinset := by
    apply Finset.ext
    intro x
    rw [List.mem_toFinset, List.mem_toFinset, hM, foldl_keys_mem]
    simp
  calc M.length = (M.map Prod.fst).length := hlen
    _ = (M.map Prod.fst).toFinset.card := (List.toFinset_card_of_nodup hnd).symm
    _ = (items.map itemSlug).toFinset.card := by rw [hfin]
    _ = ((items.map itemSlug).dedup).length := List.card_toFinset _

/-- C3: `createSlugMap` keys each item by the slug of its title / content /
`untitled-id` source, in collection order with later items overwriting
earlier ones: every lookup resolves to the last item of the collection
bearing that slug (so for two items titled "Notes" inserted A then B,
`notes` resolves to B and A is unreachable); the map size is the number of
distinct generated slugs, at most the item count and strictly less under
any collision. -/

theorem c3_createSlugMap (items : List ArenaItem) :
    (∀ k, mapGet (createSlugMap { title := "chan", contents := some items }) k =
        (items.filter (fun it => itemSlug it = k)).getLast?) ∧
      (createSlugMap { title := "chan", contents := some items }).length =
        ((items.map itemSlug).dedup).length ∧
      (createSlugMap { title := "chan", contents := some items }).length ≤ items.length ∧
      (¬(items.map itemSlug).Nodup →
        (createSlugMap { title := "chan", contents := some items }).length < items.length) ∧
      mapGet (createSlugMap notesChannel) "notes" = some noteItemB ∧
      (createSlugMap notesChannel).length = 1 := by
  have hcs : createSlugMap { title := "chan", contents := some items } =
      items.foldl (fun m item => jsMapSet m (itemSlug item) item) [] := rfl
  have hlen : (createSlugMap { title := "chan", contents := some items }).length =
      ((items.map itemSlug).dedup).length := by
    rw [hcs]
    exact foldl_length_dedup items
  have hle : ((items.map itemSlug).dedup).length ≤ items.length := by
    calc ((items.map itemSlug).dedup).length ≤ (items.map itemSlug).length :=
          List.Sublist.length_le (List.dedup_sublist _)
      _ = items.length := List.length_map items itemSlug
  refine ⟨?_, hlen, ?_, ?_, by decide, by decide⟩
  · intro k
    rw [hcs, foldl_jsMapSet_get]
    cases hg : (items.filter (fun it => itemSlug it = k)).getLast? with
    | some v => rfl
    | none => rfl
  · rw [hlen]
    exact hle
  · intro hnd
    rw [hlen]
    have hne : ((items.map itemSlug).dedup).length ≠ (items.map itemSlug).length := by
      intro heq
      apply hnd
      rw [← List.dedup_eq_self]
      exact List.Sublist.eq_of_length (List.dedup_sublist _) heq
    have : ((items.map itemSlug).dedup).length < (items.map itemSlug).length :=
      lt_of_le_of_ne (List.Sublist.length_le (List.dedup_sublist _)) hne
    calc ((items.map itemSlug).dedup).length < (items.map itemSlug).length := this
      _ = items.length := List.length_map items itemSlug

/-- C3 witness: the slug-map properties evaluated on the collision
scenario. -/

theorem c3_createSlugMap_witness :
    mapGet (createSlugMap { title := "chan", contents := some [noteItemA, noteItemB] }) "notes" =
        ([noteItemA, noteItemB].filter (fun it => itemSlug it = "notes")).getLast? ∧
      ¬(([noteItemA, noteItemB]).map itemSlug).Nodup ∧
      (createSlugMap { title := "chan", contents := some [noteItemA, noteItemB] }).length < 2 ∧
      mapGet (createSlugMap notesChannel) "notes" = some noteItemB :=
  ⟨(c3_createSlugMap [noteItemA, noteItemB]).1 "notes",
   by decide,
   (c3_createSlugMap [noteItemA, noteItemB]).2.2.2.1 (by decide),
   (c3_createSlugMap [noteItemA, noteItemB]).2.2.2.2.1⟩

/-- C4: the Description Parser on
`"pin: top\ntags: sky, water\nSome text here."` returns the pinned flag and
exactly the tags field with two tag links labelled `#sky` and `#water`
(hyperlinks to `/#` plus the url-encoded tag) followed by the
markdown-rendered paragraph `Some text here.`; neither directive line
appears in the rendered HTML. -/

theorem c4_description_directives :
    processItemDescription c4Description = ⟨c4ExpectedHtml, true⟩ ∧
      countInfixL "class=\"tag-link\"".data c4ExpectedHtml.data = 2 ∧
      infixL "<a href=\"/#sky\" class=\"tag-link\">#sky</a>".data c4ExpectedHtml.data = true ∧
      infixL "<a href=\"/#water\" class=\"tag-link\">#water</a>".data c4ExpectedHtml.data = true ∧
      infixL "<div class=\"markdown-content\"><p>Some text here.</p></div>".data
        c4ExpectedHtml.data = true ∧
      infixL "pin: top".data c4ExpectedHtml.data = false ∧
      infixL "tags: sky, water".data c4ExpectedHtml.data = false := by
  refine ⟨by decide, by decide, by decide, by decide, by decide, by decide, by decide⟩

/-- C6: the Content Classifier on the structured Text item renders an
`<h3>Title</h3>` heading followed by a paragraph `Body`, inside the
structured-content wrapper. -/

theorem c6_structured_text_blocks :
    processItemContent c6Item =
        "<div class=\"structured-content\"><h3>Title</h3>\n<p>Body</p></div>" ∧
      infixL "<h3>Title</h3>\n<p>Body</p>".data (processItemContent c6Item).data = true := by
  refine ⟨by decide, by decide⟩

/-- C8: an Image item whose `image.display.url` chain is not truthy renders
the literal inline error placeholder; the classifier is a total function,
so no item aborts page generation. -/

theorem c8_image_error_placeholder (item : ArenaItem)
    (hclass : item.itemClass = "Image") (hurl : jsImageDisplayUrl item = none) :
    processItemContent item = "<div class=\"error\">Image URL not available</div>" := by
  rw [processItemContent, imageBranch, hclass, hurl]
  simp only [reduceIte]
  rfl

/-- C8 witness: the placeholder evaluated on a concrete url-less Image
item. -/

theorem c8_image_error_placeholder_witness :
    imageItemNoUrl.itemClass = "Image" ∧ jsImageDisplayUrl imageItemNoUrl = none ∧
      processItemContent imageItemNoUrl = "<div class=\"error\">Image URL not available</div>" :=
  ⟨by decide, by decide, c8_image_error_placeholder imageItemNoUrl (by decide) (by decide)⟩

/-- The result of `dropWhile` never exceeds the input in length. -/

theorem dropWhile_length_le (p : Char → Bool) (l : List Char) :
    (l.dropWhile p).length ≤ l.length := by
  induction l with
  | nil => simp
  | cons c rest ih =>
    rw [List.dropWhile_cons]
    split
    · exact Nat.le_trans ih (Nat.le_succ _)
    · simp

/-- A `takeWhile` scan passes through a block whose characters all satisfy
the predicate. -/

theorem takeWhile_append_all (p : Char → Bool) (a b : List Char)
    (h : ∀ c ∈ a, p c = true) :
    (a ++ b).takeWhile p = a ++ b.takeWhile p := by
  induction a with
  | nil => rfl
  | cons c a' ih =>
    simp only [List.cons_append, List.takeWhile_cons, h c (List.mem_cons_self c a'),
      if_true]
    rw [ih (fun x hx => h x (List.mem_cons_of_mem _ hx))]

/-- A needle that fails to be a prefix of a list still fails after the list
is extended by a character the needle does not contain. -/

theorem startsWithL_append_head (n a : List Char) (d : Char) (z : List Char)
    (hn : startsWithL n a = false) (hd : d ∉ n) :
    startsWithL n (a ++ d :: z) = false := by
  induction n generalizing a with
  | nil => simp [startsWithL] at hn
  | cons p ps ih =>
    match a with
    | [] =>
      have hpd : ¬(p = d) := fun h => hd (h ▸ List.mem_cons_self p ps)
      simp [startsWithL, hpd]
    | c :: a' =>
      simp only [startsWithL, Bool.and_eq_false_iff] at hn
      simp only [List.cons_append, startsWithL, Bool.and_eq_false_iff]
      cases hn with
      | inl h => exact Or.inl h
      | inr h =>
        exact Or.inr (ih a' h (fun hm => hd (List.mem_cons_of_mem _ hm)))

/-- A needle absent from a list stays absent when the list is extended by
one character the needle does not contain. -/

theorem infixL_append_single (n a : List Char) (d : Char)
    (ha : infixL n a = false) (hd : d ∉ n) (hne : n ≠ []) :
    infixL n (a ++ [d]) = false := by
  induction a with
  | nil =>
    match n, hne with
    | p :: ps, _ =>
      have hpd : ¬(p = d) := fun h => hd (h ▸ List.mem_cons_self p ps)
      simp [infixL, startsWithL, hpd, List.isEmpty]
  | cons c a' ih =>
    simp only [infixL, Bool.or_eq_false_iff] at ha
    simp only [List.cons_append, infixL, Bool.or_eq_false_iff]
    refine ⟨?_, ih ha.2⟩
    have := startsWithL_append_head n (c :: a') d [] ha.1 hd
    simpa using this

/-- Lower-casing distributes over concatenation. -/

theorem lowerL_append (a b : List Char) : lowerL (a ++ b) = lowerL a ++ lowerL b :=
  List.map_append jsToLower a b

/-- The backtracking `href=` search stops at a closing bracket. -/

theorem goHref_gt (rest : List Char) : goHref ('>' :: rest) = none := rfl

/-- One failing step of the backtracking `href=` search. -/

theorem goHref_step_none (c : Char) (w : List Char)
    (hw : goHref w = none)
    (hs : startsWithCIL "href=".data (c :: w) = false) :
    goHref (c :: w) = none := by
  rw [goHref, hw, ite_self]
  exact if_neg (by simp [hs])

/-- One matching step of the backtracking `href=` search: when every deeper
position fails and `href=` starts here, the href continuation decides. -/

theorem goHref_step_match (c : Char) (w : List Char)
    (hw : goHref w = none)
    (hs : startsWithCIL "href=".data (c :: w) = true) :
    goHref (c :: w) = matchHrefCont ((c :: w).drop 5) := by
  rw [goHref, hw, ite_self]
  exact if_pos hs

/-- The `href=` search finds nothing inside a URL block free of quotes,
closing brackets and `href=` substrings. -/

theorem goHref_url_part (u rest : List Char)
    (hu : ∀ c ∈ u, isQuote c = false ∧ ¬(c = '>'))
    (hhref : infixL "href=".data (lowerL u) = false) :
    goHref (u ++ dquote :: '>' :: rest) = none := by
  induction u with
  | nil =>
    apply goHref_step_none
    · exact goHref_gt rest
    · rfl
  | cons c u' ih =>
    have hstep : infixL "href=".data (jsToLower c :: lowerL u') = false := hhref
    simp only [infixL, Bool.or_eq_false_iff] at hstep
    have ih' := ih (fun x hx => hu x (List.mem_cons_of_mem _ hx)) hstep.2
    apply goHref_step_none c _ ih'
    show startsWithL "href=".data (lowerL ((c :: u') ++ dquote :: '>' :: rest)) = false
    rw [lowerL_append]
    show startsWithL "href=".data
        (lowerL (c :: u') ++ dquote :: (jsToLower '>' :: lowerL rest)) = false
    apply startsWithL_append_head
    · exact hstep.1
    · decide

/-- The href continuation accepts a quoted https URL made of non-quote
characters and returns the text after the closing bracket. -/

theorem matchHrefCont_url (u rest : List Char)
    (hq : ∀ c ∈ u, isQuote c = false) (hne : u ≠ []) :
    matchHrefCont (dquote ::
        ('h' :: 't' :: 't' :: 'p' :: 's' :: ':' :: '/' :: '/' ::
          (u ++ dquote :: '>' :: rest))) = some rest := by
  have hurl : (u ++ dquote :: '>' :: rest).takeWhile (fun c => !(isQuote c)) = u := by
    rw [takeWhile_append_all _ _ _ (fun c hc => by simp [hq c hc])]
    simp [List.takeWhile_cons, dquote, isQuote]
  have hdrop : (u ++ dquote :: '>' :: rest).drop u.length = dquote :: '>' :: rest :=
    List.drop_left u _
  have hempty : u.isEmpty = false := by
    cases u with
    | nil => exact absurd rfl hne
    | cons a b => rfl
  show (if ((u ++ dquote :: '>' :: rest).takeWhile (fun c => !(isQuote c))).isEmpty = true
        then none
        else
          match (u ++ dquote :: '>' :: rest).drop
              ((u ++ dquote :: '>' :: rest).takeWhile (fun c => !(isQuote c))).length with
          | [] => none
          | q2 :: v6 =>
            if isQuote q2 = true then
              match v6.dropWhile (fun c => c ≠ '>') with
              | [] => none
              | _ :: v8 => some v8
            else none) = some rest
  rw [hurl, hdrop, hempty]
  rfl

/-- The full regex tail on an external anchor: the backtracking search
matches exactly the `href=` at the head and consumes through the closing
bracket. -/

theorem goHref_tag (u rest : List Char)
    (hne : u ≠ [])
    (hu : ∀ c ∈ u, isQuote c = false ∧ ¬(c = '>'))
    (hhref : infixL "href=".data (lowerL u) = false) :
    goHref ('h' :: 'r' :: 'e' :: 'f' :: '=' :: dquote ::
        'h' :: 't' :: 't' :: 'p' :: 's' :: ':' :: '/' :: '/' ::
        (u ++ dquote :: '>' :: rest)) = some rest := by
  have h0 : goHref (u ++ dquote :: '>' :: rest) = none := goHref_url_part u rest hu hhref
  have h13 := goHref_step_none '/' _ h0 rfl
  have h12 := goHref_step_none '/' _ h13 rfl
  have h11 := goHref_step_none ':' _ h12 rfl
  have h10 := goHref_step_none 's' _ h11 rfl
  have h9 := goHref_step_none 'p' _ h10 rfl
  have h8 := goHref_step_none 't' _ h9 rfl
  have h7 := goHref_step_none 't' _ h8 rfl
  have h6 := goHref_step_none 'h' _ h7 rfl
  have h5 := goHref_step_none dquote _ h6 rfl
  have h4 := goHref_step_none '=' _ h5 rfl
  have h3 := goHref_step_none 'f' _ h4 rfl
  have h2 := goHref_step_none 'e' _ h3 rfl
  have h1 := goHref_step_none 'r' _ h2 rfl
  rw [goHref_step_match 'h' _ h1 rfl]
  exact matchHrefCont_url u rest (fun c hc => (hu c hc).1) hne

/-- The anchor regex matches an external anchor whose URL block satisfies
the side conditions of the scan: non-empty, free of quotes and closing
brackets, and without `href=` or `target=` substrings. -/

theorem tryMatchAnchor_external (u rest : List Char)
    (hne : u ≠ [])
    (hu : ∀ c ∈ u, isQuote c = false ∧ ¬(c = '>'))
    (hhref : infixL "href=".data (lowerL u) = false)
    (htarget : infixL "target=".data (lowerL u) = false) :
    tryMatchAnchor ("<a href=\"https://".data ++ (u ++ dquote :: '>' :: rest)) =
      some rest := by
  have hpre : (u ++ dquote :: '>' :: rest).takeWhile (fun c => c ≠ '>') = u ++ [dquote] := by
    rw [takeWhile_append_all _ _ _ (fun c hc => by simp [(hu c hc).2])]
    simp [List.takeWhile_cons, dquote]
  have htargetFull : infixL "target=".data (lowerL u ++ [dquote]) = false :=
    infixL_append_single _ _ _ htarget (by decide) (by decide)
  show (if infixL "target=".data
          (lowerL ('h' :: 'r' :: 'e' :: 'f' :: '=' :: dquote ::
            'h' :: 't' :: 't' :: 'p' :: 's' :: ':' :: '/' :: '/' ::
            ((u ++ dquote :: '>' :: rest).takeWhile (fun c => c ≠ '>')))) = true
        then none
        else goHref ('h' :: 'r' :: 'e' :: 'f' :: '=' :: dquote ::
          'h' :: 't' :: 't' :: 'p' :: 's' :: ':' :: '/' :: '/' ::
          (u ++ dquote :: '>' :: rest))) = some rest
  rw [hpre]
  have hcond : infixL "target=".data
      (lowerL ('h' :: 'r' :: 'e' :: 'f' :: '=' :: dquote ::
        'h' :: 't' :: 't' :: 'p' :: 's' :: ':' :: '/' :: '/' :: (u ++ [dquote]))) = false := by
    show infixL "target=".data (lowerL (u ++ [dquote])) = false
    rw [lowerL_append]
    exact htargetFull
  rw [hcond]
  show goHref ('h' :: 'r' :: 'e' :: 'f' :: '=' :: dquote ::
      'h' :: 't' :: 't' :: 'p' :: 's' :: ':' :: '/' :: '/' ::
      (u ++ dquote :: '>' :: rest)) = some rest
  exact goHref_tag u rest hne hu hhref

/-- The terminal step of the href continuation consumes strictly more than
it returns. -/

theorem matchHrefCont_core_length (w r : List Char)
    (hm : (match w with
           | [] => none
           | q2 :: v6 =>
             if isQuote q2 = true then
               match List.dropWhile (fun c => c ≠ '>') v6 with
               | [] => none
               | _head :: v8 => some v8
             else none) = some r) : r.length < w.length := by
  cases w with
  | nil => exact Option.noConfusion hm
  | cons q2 v6 =>
    replace hm : (if isQuote q2 = true then
        (match List.dropWhile (fun c => c ≠ '>') v6 with
         | [] => none
         | _head :: v8 => some v8) else none) = some r := hm
    split at hm
    · cases hdw : List.dropWhile (fun c => c ≠ '>') v6 with
      | nil => rw [hdw] at hm; exact Option.noConfusion hm
      | cons x v8 =>
        rw [hdw] at hm
        have hr : v8 = r := Option.some.inj hm
        subst hr
        have h1 : (List.dropWhile (fun c => c ≠ '>') v6).length ≤ v6.length :=
          dropWhile_length_le _ _
        rw [hdw] at h1
        simp only [List.length_cons] at h1 ⊢
        omega
    · exact Option.noConfusion hm

/-- A successful href continuation returns a strict suffix (in length) of
its input. -/

theorem matchHrefCont_length (v r : List Char) (h : matchHrefCont v = some r) :
    r.length < v.length := by
  match v with
  | [] => exact Option.noConfusion h
  | q :: v1 =>
    simp only [matchHrefCont] at h
    split at h
    · split at h
      · split at h
        · split at h
          · split at h
            · exact Option.noConfusion h
            · have hc := matchHrefCont_core_length _ _ h
              have hd : (List.drop
                  (List.takeWhile (fun c => !isQuote c)
                    (List.drop 3 (List.drop 1 (List.drop 4 v1)))).length
                  (List.drop 3 (List.drop 1 (List.drop 4 v1)))).length ≤ v1.length := by
                simp [List.length_drop]
              simp only [List.length_cons]
              omega
          · exact Option.noConfusion h
        · split at h
          · split at h
            · exact Option.noConfusion h
            · have hc := matchHrefCont_core_length _ _ h
              have hd : (List.drop
                  (List.takeWhile (fun c => !isQuote c)
                    (List.drop 3 (List.drop 4 v1))).length
                  (List.drop 3 (List.drop 4 v1))).length ≤ v1.length := by
                simp [List.length_drop]
              simp only [List.length_cons]
              omega
          · exact Option.noConfusion h
      · exact Option.noConfusion h
    · exact Option.noConfusion h

/-- A successful backtracking `href=` search returns a strict suffix (in
length) of its input. -/

theorem goHref_length : ∀ (l r : List Char), goHref l = some r → r.length < l.length
  | [], r, h => Option.noConfusion h
  | c :: w, r, h => by
    rw [goHref] at h
    cases hg : (if c ≠ '>' then goHref w else none) with
    | some r2 =>
      rw [hg] at h
      replace h : some r2 = some r := h
      have hr : r2 = r := Option.some.inj h
      subst hr
      have hw : goHref w = some r2 := by
        by_cases hc : c ≠ '>'
        · rwa [if_pos hc] at hg
        · rw [if_neg hc] at hg; exact Option.noConfusion hg
      have := goHref_length w r2 hw
      simp only [List.length_cons]
      omega
    | none =>
      rw [hg] at h
      replace h : (if startsWithCIL "href=".data (c :: w) = true then
          matchHrefCont ((c :: w).drop 5) else none) = some r := h
      split at h
      · have := matchHrefCont_length _ _ h
        have hd : ((c :: w).drop 5).length ≤ (c :: w).length := by
          simp only [List.length_drop]
          omega
        omega
      · exact Option.noConfusion h

/-- Every match of the anchor regex consumes at least one character. -/

theorem tryMatchAnchor_length (s r : List Char) (h : tryMatchAnchor s = some r) :
    r.length < s.length := by
  match s with
  | [] => exact Option.noConfusion h
  | [c] => exact Option.noConfusion h
  | c1 :: c2 :: t =>
    simp only [tryMatchAnchor] at h
    split at h
    · split at h
      · exact Option.noConfusion h
      · split at h
        · exact Option.noConfusion h
        · have hg := goHref_length _ _ h
          have hd : (t.dropWhile isSpaceJS).length ≤ t.length := dropWhile_length_le _ _
          simp only [List.length_cons]
          omega
    · exact Option.noConfusion h

/-- The scan is insensitive to its fuel once the fuel covers the input
length, because every step consumes at least one character. -/

theorem addTargetBlankScan_eq :
    ∀ (f g : Nat) (s : List Char), s.length ≤ f → s.length ≤ g →
      addTargetBlankScan f s = addTargetBlankScan g s
  | 0, g, s, hf, _hg => by
    have hs : s = [] := List.eq_nil_of_length_eq_zero (Nat.le_zero.mp hf)
    subst hs
    cases g with
    | zero => rfl
    | succ g' => rfl
  | _f + 1, 0, s, _hf, hg => by
    have hs : s = [] := List.eq_nil_of_length_eq_zero (Nat.le_zero.mp hg)
    subst hs
    rfl
  | f + 1, g + 1, s, hf, hg => by
    match s with
    | [] => rfl
    | c :: rest =>
      rw [addTargetBlankScan, addTargetBlankScan]
      cases hm : tryMatchAnchor (c :: rest) with
      | some r =>
        have hr := tryMatchAnchor_length _ _ hm
        simp only [List.length_cons] at hf hg hr
        show appendTargetBlank (List.take ((c :: rest).length - r.length) (c :: rest)) ++
              addTargetBlankScan f r =
            appendTargetBlank (List.take ((c :: rest).length - r.length) (c :: rest)) ++
              addTargetBlankScan g r
        rw [addTargetBlankScan_eq f g r (by omega) (by omega)]
      | none =>
        simp only [List.length_cons] at hf hg
        show c :: addTargetBlankScan f rest = c :: addTargetBlankScan g rest
        rw [addTargetBlankScan_eq f g rest (by omega) (by omega)]

/-- A scan with enough fuel computes the external-link rewrite. -/

theorem addTargetBlankScan_fuel (f : Nat) (s : List Char) (h : s.length ≤ f) :
    addTargetBlankScan f s = addTargetBlankToExternalLinksL s :=
  addTargetBlankScan_eq f s.length s h (Nat.le_refl _)

/-- One matching step of the scan: the matched prefix is rewritten and the
scan continues after it. -/

theorem addTargetBlankScan_match_step (f : Nat) (s r : List Char)
    (hm : tryMatchAnchor s = some r) :
    addTargetBlankScan (f + 1) s =
      appendTargetBlank (s.take (s.length - r.length)) ++ addTargetBlankScan f r := by
  match s with
  | [] => exact Option.noConfusion hm
  | c :: w =>
    rw [addTargetBlankScan, hm]

/-- The external-link rewrite on an anchor at the head of the input whose
URL block satisfies the side conditions of the regex: the anchor is
rewritten by inserting the target and rel attributes before its closing
bracket, and the scan proceeds independently on the remaining text. -/

theorem addTargetBlank_external_anchor (u rest : List Char)
    (hne : u ≠ [])
    (hu : ∀ c ∈ u, isQuote c = false ∧ ¬(c = '>'))
    (hhref : infixL "href=".data (lowerL u) = false)
    (htarget : infixL "target=".data (lowerL u) = false) :
    addTargetBlankToExternalLinksL ("<a href=\"https://".data ++ (u ++ dquote :: '>' :: rest)) =
      ("<a href=\"https://".data ++ (u ++ [dquote])) ++
        (" target=\"_blank\" rel=\"noopener noreferrer\">".data ++
          addTargetBlankToExternalLinksL rest) := by
  have hm := tryMatchAnchor_external u rest hne hu hhref htarget
  have hP : "<a href=\"https://".data ++ (u ++ dquote :: '>' :: rest) =
      ("<a href=\"https://".data ++ (u ++ [dquote, '>'])) ++ rest := by
    simp [List.append_assoc]
  rw [addTargetBlankToExternalLinksL, hP]
  rw [hP] at hm
  have hPlen : ("<a href=\"https://".data ++ (u ++ [dquote, '>'])).length =
      u.length + 19 := by
    simp [List.length_append]
  obtain ⟨g, hg⟩ : ∃ g,
      (("<a href=\"https://".data ++ (u ++ [dquote, '>'])) ++ rest).length = g + 1 :=
    ⟨u.length + 18 + rest.length, by simp [List.length_append, hPlen]; omega⟩
  rw [hg]
  rw [addTargetBlankScan_match_step g _ rest hm]
  have htake : (("<a href=\"https://".data ++ (u ++ [dquote, '>'])) ++ rest).take
      ((("<a href=\"https://".data ++ (u ++ [dquote, '>'])) ++ rest).length - rest.length) =
      "<a href=\"https://".data ++ (u ++ [dquote, '>']) := by
    have hl : (("<a href=\"https://".data ++ (u ++ [dquote, '>'])) ++ rest).length -
        rest.length = ("<a href=\"https://".data ++ (u ++ [dquote, '>'])).length := by
      simp [List.length_append]
      omega
    rw [hl, List.take_left]
  rw [htake]
  have hQ : "<a href=\"https://".data ++ (u ++ [dquote, '>']) =
      ("<a href=\"https://".data ++ (u ++ [dquote])) ++ ['>'] := by
    simp [List.append_assoc]
  have happ : appendTargetBlank (("<a href=\"https://".data ++ (u ++ [dquote])) ++ ['>']) =
      ("<a href=\"https://".data ++ (u ++ [dquote])) ++
        " target=\"_blank\" rel=\"noopener noreferrer\">".data := by
    simp only [appendTargetBlank, List.getLast?_concat, List.dropLast_concat]
    rfl
  rw [hQ, happ]
  have hfuel : addTargetBlankScan g rest = addTargetBlankToExternalLinksL rest := by
    apply addTargetBlankScan_fuel
    have := hg
    simp [List.length_append, hPlen] at this
    omega
  rw [hfuel, List.append_assoc]

/-- C9: the claim as stated is false: this anchor carries an absolute
external http href and no target attribute, yet the rewrite leaves it
byte-identical, because the negative lookahead rejects any anchor whose
attribute text contains the substring `target=` anywhere before the closing
bracket — here inside `data-target=`. -/

theorem c9_external_link_counterexample :
    addTargetBlankToExternalLinks "<a data-target=\"x\" href=\"https://example.com\">y</a>" =
        "<a data-target=\"x\" href=\"https://example.com\">y</a>" ∧
      infixL "target=\"_blank\"".data
        (addTargetBlankToExternalLinks
          "<a data-target=\"x\" href=\"https://example.com\">y</a>").data = false := by
  refine ⟨by decide, by decide⟩

/-- C9 (amended): the rewrite appends `target="_blank"
rel="noopener noreferrer"` before the closing bracket of an anchor of the
shape `<a href="https://URL">` whenever the URL block is non-empty and free
of quotes, closing brackets and `href=`/`target=` substrings (the guard of
the regex is a substring test on the text before the closing bracket, not
an attribute test), with the scan continuing independently on the text
after the anchor; the two spec instances hold, an anchor with a target
attribute is left unchanged, and a multi-anchor page rewrites exactly its
external anchors. -/

theorem c9_external_link_rewrite (u rest : List Char)
    (hne : u ≠ [])
    (hu : ∀ c ∈ u, isQuote c = false ∧ ¬(c = '>'))
    (hhref : infixL "href=".data (lowerL u) = false)
    (htarget : infixL "target=".data (lowerL u) = false) :
    (addTargetBlankToExternalLinksL
        ("<a href=\"https://".data ++ (u ++ dquote :: '>' :: rest)) =
      ("<a href=\"https://".data ++ (u ++ [dquote])) ++
        (" target=\"_blank\" rel=\"noopener noreferrer\">".data ++
          addTargetBlankToExternalLinksL rest)) ∧
      addTargetBlankToExternalLinks "<a href=\"https://example.com\">x</a>" =
        "<a href=\"https://example.com\" target=\"_blank\" rel=\"noopener noreferrer\">x</a>" ∧
      addTargetBlankToExternalLinks "<a href=\"/foo\">x</a>" = "<a href=\"/foo\">x</a>" ∧
      addTargetBlankToExternalLinks "<a target=\"_self\" href=\"https://example.com\">x</a>" =
        "<a target=\"_self\" href=\"https://example.com\">x</a>" ∧
      addTargetBlankToExternalLinks
          "<p><a href=\"https://a.io\">1</a> and <a href=\"https://b.io\">2</a> and <a href=\"/c\">3</a></p>" =
        "<p><a href=\"https://a.io\" target=\"_blank\" rel=\"noopener noreferrer\">1</a> and <a href=\"https://b.io\" target=\"_blank\" rel=\"noopener noreferrer\">2</a> and <a href=\"/c\">3</a></p>" :=
  ⟨addTargetBlank_external_anchor u rest hne hu hhref htarget,
    by decide, by decide, by decide, by decide⟩

/-- C9 witness: the amended rewrite rule evaluated at the spec URL. -/

theorem c9_external_link_rewrite_witness :
    ("example.com".data ≠ [] ∧
      (∀ c ∈ "example.com".data, isQuote c = false ∧ ¬(c = '>')) ∧
      infixL "href=".data (lowerL "example.com".data) = false ∧
      infixL "target=".data (lowerL "example.com".data) = false) ∧
    addTargetBlankToExternalLinksL
        ("<a href=\"https://".data ++ ("example.com".data ++ dquote :: '>' :: "x</a>".data)) =
      ("<a href=\"https://".data ++ ("example.com".data ++ [dquote])) ++
        (" target=\"_blank\" rel=\"noopener noreferrer\">".data ++
          addTargetBlankToExternalLinksL "x</a>".data) :=
  ⟨⟨by decide, by decide, by decide, by decide⟩,
    (c9_external_link_rewrite "example.com".data "x</a>".data
      (by decide) (by decide) (by decide) (by decide)).1⟩

/-- C5: the claim as stated is false: a token whose key is absent from the
mapping is left verbatim in the output instead of yielding the empty
string. -/

theorem c5_missing_key_counterexample :
    renderTemplate "\x7b\x7bname\x7d\x7d" [] = "\x7b\x7bname\x7d\x7d" ∧
      ("\x7b\x7bname\x7d\x7d" : String) ≠ "" := by
  refine ⟨by decide, by decide⟩

/-- A replacement string containing no dollar sign is expanded by
`getSubstitution` to itself. -/

theorem getSubstitution_of_no_dollar :
    ∀ (repl m pre post : List Char), (∀ c ∈ repl, c ≠ '$') →
      getSubstitution repl m pre post = repl
  | [], _, _, _, _ => rfl
  | [c], _, _, _, _ => rfl
  | c :: d :: t, m, pre, post, h => by
    have hc : c ≠ '$' := h c (List.mem_cons_self c (d :: t))
    simp only [getSubstitution, if_neg hc]
    rw [getSubstitution_of_no_dollar (d :: t) m pre post
      (fun x hx => h x (List.mem_cons_of_mem _ hx))]

/-- C5 (amended): the substitution engine replaces every occurrence of a
whitespace-tolerant double-curly-brace token whose key is present in the
mapping with the string form of its value interpreted as a replacement
pattern (a dollar-free value is inserted literally; a dollar-dollar inserts
a dollar, a dollar-ampersand re-inserts the matched token, a
dollar-backquote and dollar-quote insert the surrounding text), a falsy
value (empty string, zero) giving the empty string; a token whose key is
absent from the mapping is left verbatim. -/

theorem c5_renderTemplate_substitution :
    (∀ v : TmplValue, (∀ c ∈ (tmplValueToString v).data, c ≠ '$') →
      renderTemplate "pre \x7b\x7b x \x7d\x7d mid \x7b\x7bx\x7d\x7d post" [("x", v)] =
        "pre " ++ (tmplValueToString v ++ (" mid " ++ (tmplValueToString v ++ " post")))) ∧
      renderTemplate "a\x7b\x7bs\x7d\x7db\x7b\x7bn\x7d\x7dc" [("s", .str ""), ("n", .num 0)] =
        "abc" ∧
      renderTemplate "v=\x7b\x7b key \x7d\x7d." [("key", .str "V")] = "v=V." ∧
      renderTemplate "\x7b\x7bmissing\x7d\x7d" [("key", .str "V")] = "\x7b\x7bmissing\x7d\x7d" ∧
      renderTemplate "a\x7b\x7bk\x7d\x7db" [("k", .str "$&")] = "a\x7b\x7bk\x7d\x7db" ∧
      renderTemplate "a\x7b\x7bk\x7d\x7db" [("k", .str "$$")] = "a$b" ∧
      renderTemplate "ab\x7b\x7bk\x7d\x7dc" [("k", .str "$\x60")] = "ababc" ∧
      renderTemplate "ab\x7b\x7bk\x7d\x7dc" [("k", .str "$\x27")] = "abcc" := by
  refine ⟨fun v hv => ?_, by decide, by decide, by decide, by decide, by decide,
    by decide, by decide⟩
  have e1 := getSubstitution_of_no_dollar (tmplValueToString v).data
    "\x7b\x7b x \x7d\x7d".data "pre ".data " mid \x7b\x7bx\x7d\x7d post".data hv
  have e2 := getSubstitution_of_no_dollar (tmplValueToString v).data
    "\x7b\x7bx\x7d\x7d".data "pre \x7b\x7b x \x7d\x7d mid ".data " post".data hv
  calc renderTemplate "pre \x7b\x7b x \x7d\x7d mid \x7b\x7bx\x7d\x7d post" [("x", v)]
      = String.mk ("pre ".data ++
          (getSubstitution (tmplValueToString v).data "\x7b\x7b x \x7d\x7d".data
              "pre ".data " mid \x7b\x7bx\x7d\x7d post".data ++
            (" mid ".data ++
              (getSubstitution (tmplValueToString v).data "\x7b\x7bx\x7d\x7d".data
                  "pre \x7b\x7b x \x7d\x7d mid ".data " post".data ++ " post".data)))) := rfl
    _ = "pre " ++ (tmplValueToString v ++ (" mid " ++ (tmplValueToString v ++ " post"))) := by
        rw [e1, e2]
        rfl

/-- Splitting at a character that does not occur gives the whole list. -/

theorem splitOnChar_single (sep : Char) (l : List Char) (h : ∀ c ∈ l, ¬(c = sep)) :
    splitOnChar sep l = [l] := by
  induction l with
  | nil => rfl
  | cons c rest ih =>
    simp only [splitOnChar]
    rw [if_neg (h c (List.mem_cons_self c rest))]
    rw [ih (fun x hx => h x (List.mem_cons_of_mem _ hx))]

/-- Leading spaces are consumed by the whitespace `dropWhile`. -/

theorem dropWhile_space_replicate (n : Nat) (t : List Char) :
    (List.replicate n ' ' ++ t).dropWhile isSpaceJS = t.dropWhile isSpaceJS := by
  induction n with
  | zero => rfl
  | succ m ih =>
    rw [List.replicate_succ, List.cons_append, List.dropWhile_cons,
      if_pos (show isSpaceJS ' ' = true by decide)]
    exact ih

/-- Trimming discards leading spaces. -/

theorem trimL_space_replicate (n : Nat) (t : List Char) :
    trimL (List.replicate n ' ' ++ t) = trimL t := by
  rw [trimL, trimL, dropWhile_space_replicate]

/-- An indented line does not match a start-anchored keyword. -/

theorem startsWithCIL_indent_false (n : Nat) (h : 1 ≤ n) (p : Char) (ps t : List Char)
    (hp : ¬(jsToLower p = ' ')) :
    startsWithCIL (p :: ps) (List.replicate n ' ' ++ t) = false := by
  match n, h with
  | m + 1, _ =>
    rw [startsWithCIL, List.replicate_succ, List.cons_append]
    rw [lowerL, List.map_cons, lowerL, List.map_cons]
    show (decide (jsToLower p = jsToLower ' ') && _) = false
    have : jsToLower ' ' = ' ' := rfl
    rw [this, decide_eq_false hp]
    rfl

/-- A single-line description whose one line the directive pass drops
parses to no html and no pinned flag. -/

theorem processItemDescription_single_dropped (d : List Char)
    (hne : d ≠ [])
    (hnl : splitOnChar '\n' d = [d])
    (hstep : descStep ⟨false, [], []⟩ d = ⟨false, [], []⟩) :
    processItemDescription (String.mk d) = ⟨"", false⟩ := by
  have hdata : (String.mk d).data = d := rfl
  have hne2 : String.mk d ≠ "" := by
    intro he
    apply hne
    have h2 : (String.mk d).data = ("" : String).data := by rw [he]
    simpa using h2
  rw [processItemDescription, if_neg hne2]
  simp only [hdata, hnl, List.foldl_cons, List.foldl_nil, hstep]
  decide

/-- A single-line description on which both anchored colour regexes fail
yields empty colour values, whichever find succeeds. -/

theorem extractColour_single_empty (d : List Char)
    (hne : d ≠ [])
    (hnl : splitOnChar '\n' d = [d])
    (hfl : (trimL d).isEmpty = false)
    (hc : colourRegexValue "colour".data d = [])
    (hb : colourRegexValue "border".data d = []) :
    extractColourFromDescription (String.mk d) = ⟨"", ""⟩ := by
  have hdata : (String.mk d).data = d := rfl
  have hne2 : String.mk d ≠ "" := by
    intro he
    apply hne
    have h2 : (String.mk d).data = ("" : String).data := by rw [he]
    simpa using h2
  rw [extractColourFromDescription, if_neg hne2]
  simp only [hdata, hnl, List.filter_cons, List.filter_nil, hfl, Bool.not_false, if_pos,
    List.find?_singleton]
  cases hcp : startsWithL "colour:".data (lowerL (trimL d)) with
  | true =>
    cases hbp : startsWithL "border:".data (lowerL (trimL d)) with
    | true => simp only [if_pos, hc, hb]
    | false => simp only [if_pos, Bool.false_eq_true, if_false, hc]
  | false =>
    cases hbp : startsWithL "border:".data (lowerL (trimL d)) with
    | true => simp only [Bool.false_eq_true, if_false, if_pos, hb]
    | false => simp only [Bool.false_eq_true, if_false]

/-- An indented directive line never satisfies the anchored colour/border
regex, whatever keyword is asked for. -/

theorem colourRegexValue_indent (n : Nat) (h : 1 ≤ n) (key : List Char) (c0 : Char)
    (ps tail : List Char) (hk : key ++ [':'] = c0 :: ps) (hc0 : ¬(jsToLower c0 = ' ')) :
    colourRegexValue key (List.replicate n ' ' ++ tail) = [] := by
  have hsw : startsWithCIL (key ++ [':']) (List.replicate n ' ' ++ tail) = false := by
    rw [hk]
    exact startsWithCIL_indent_false n h c0 ps tail hc0
  simp only [colourRegexValue, hsw, Bool.false_eq_true, if_false]

/-- C10: the two description scans disagree on whitespace-indented
directive lines: for any indentation of one or more spaces,
`extractColourFromDescription` finds the `colour:` (resp. `border:`) line
through its trimmed `startsWith` test but the start-anchored regex then
fails on the untrimmed line, so both extracted colours are empty — while
`processItemDescription`, which trims each line before matching, still
recognises the directive and drops it from the prose (empty html, no
pinned flag).  Unindented, the same lines do produce colour values. -/

theorem c10_indented_directive_disagreement (n : Nat) (h : 1 ≤ n) :
    extractColourFromDescription (c10Indented n "colour: red".data) = ⟨"", ""⟩ ∧
      processItemDescription (c10Indented n "colour: red".data) = ⟨"", false⟩ ∧
      extractColourFromDescription (c10Indented n "border: blue".data) = ⟨"", ""⟩ ∧
      processItemDescription (c10Indented n "border: blue".data) = ⟨"", false⟩ ∧
      extractColourFromDescription "colour: red" = ⟨"red", ""⟩ ∧
      extractColourFromDescription "border: blue" = ⟨"", "blue"⟩ := by
  have hne1 : List.replicate n ' ' ++ "colour: red".data ≠ [] := by
    intro he
    have h2 := congrArg List.length he
    simp at h2
  have hne2 : List.replicate n ' ' ++ "border: blue".data ≠ [] := by
    intro he
    have h2 := congrArg List.length he
    simp at h2
  have hnl1 : splitOnChar '\n' (List.replicate n ' ' ++ "colour: red".data) =
      [List.replicate n ' ' ++ "colour: red".data] := by
    apply splitOnChar_single
    intro c hc
    rcases List.mem_append.mp hc with hm | hm
    · rw [List.eq_of_mem_replicate hm]
      decide
    · revert hm
      have : ∀ c ∈ "colour: red".data, ¬(c = '\n') := by decide
      exact this c
  have hnl2 : splitOnChar '\n' (List.replicate n ' ' ++ "border: blue".data) =
      [List.replicate n ' ' ++ "border: blue".data] := by
    apply splitOnChar_single
    intro c hc
    rcases List.mem_append.mp hc with hm | hm
    · rw [List.eq_of_mem_replicate hm]
      decide
    · revert hm
      have : ∀ c ∈ "border: blue".data, ¬(c = '\n') := by decide
      exact this c
  have hstep1 : descStep ⟨false, [], []⟩ (List.replicate n ' ' ++ "colour: red".data) =
      ⟨false, [], []⟩ := by
    simp only [descStep, trimL_space_replicate]
    decide
  have hstep2 : descStep ⟨false, [], []⟩ (List.replicate n ' ' ++ "border: blue".data) =
      ⟨false, [], []⟩ := by
    simp only [descStep, trimL_space_replicate]
    decide
  have hfl1 : (trimL (List.replicate n ' ' ++ "colour: red".data)).isEmpty = false := by
    rw [trimL_space_replicate]
    decide
  have hfl2 : (trimL (List.replicate n ' ' ++ "border: blue".data)).isEmpty = false := by
    rw [trimL_space_replicate]
    decide
  refine ⟨?_, ?_, ?_, ?_, by decide, by decide⟩
  · exact extractColour_single_empty _ hne1 hnl1 hfl1
      (colourRegexValue_indent n h _ 'c' "olour:".data _ (by decide) (by decide))
      (colourRegexValue_indent n h _ 'b' "order:".data _ (by decide) (by decide))
  · exact processItemDescription_single_dropped _ hne1 hnl1 hstep1
  · exact extractColour_single_empty _ hne2 hnl2 hfl2
      (colourRegexValue_indent n h _ 'c' "olour:".data _ (by decide) (by decide))
      (colourRegexValue_indent n h _ 'b' "order:".data _ (by decide) (by decide))
  · exact processItemDescription_single_dropped _ hne2 hnl2 hstep2

/-- C10 witness: the disagreement evaluated at two spaces of indentation. -/

theorem c10_indented_directive_witness :
    extractColourFromDescription (c10Indented 2 "colour: red".data) = ⟨"", ""⟩ ∧
      processItemDescription (c10Indented 2 "colour: red".data) = ⟨"", false⟩ ∧
      extractColourFromDescription (c10Indented 2 "border: blue".data) = ⟨"", ""⟩ :=
  ⟨(c10_indented_directive_disagreement 2 (by decide)).1,
   (c10_indented_directive_disagreement 2 (by decide)).2.1,
   (c10_indented_directive_disagreement 2 (by decide)).2.2.1⟩

/-- Stable insertion permutes: the result is the element consed on. -/

theorem insertOrdered_perm (le : ProcessedItem → ProcessedItem → Bool) (x : ProcessedItem)
    (l : List ProcessedItem) : (insertOrdered le x l).Perm (x :: l) := by
  induction l with
  | nil => exact List.Perm.refl _
  | cons y ys ih =>
    rw [insertOrdered]
    split
    · exact List.Perm.refl _
    · exact (List.Perm.cons y ih).trans (List.Perm.swap x y ys)

/-- The stable sort permutes its input. -/

theorem sortStable_perm (le : ProcessedItem → ProcessedItem → Bool) (l : List ProcessedItem) :
    (sortStable le l).Perm l := by
  induction l with
  | nil => exact List.Perm.refl _
  | cons x xs ih =>
    exact (insertOrdered_perm le x (sortStable le xs)).trans (List.Perm.cons x ih)

/-- Membership in a stable insertion. -/

theorem mem_insertOrdered (le : ProcessedItem → ProcessedItem → Bool) (x a : ProcessedItem)
    (l : List ProcessedItem) : a ∈ insertOrdered le x l ↔ a = x ∨ a ∈ l := by
  rw [(insertOrdered_perm le x l).mem_iff, List.mem_cons]

/-- Stable insertion preserves sortedness for a total transitive order. -/

theorem insertOrdered_pairwise (le : ProcessedItem → ProcessedItem → Bool)
    (htot : ∀ a b, (le a b || le b a) = true)
    (htrans : ∀ a b c, le a b = true → le b c = true → le a c = true)
    (x : ProcessedItem) (l : List ProcessedItem) (h : l.Pairwise (fun a b => le a b = true)) :
    (insertOrdered le x l).Pairwise (fun a b => le a b = true) := by
  induction l with
  | nil => simp [insertOrdered]
  | cons y ys ih =>
    rw [List.pairwise_cons] at h
    rw [insertOrdered]
    split
    · rename_i hxy
      rw [List.pairwise_cons]
      constructor
      · intro b hb
        rcases List.mem_cons.mp hb with rfl | hb2
        · exact hxy
        · exact htrans x y b hxy (h.1 b hb2)
      · exact List.pairwise_cons.mpr h
    · rename_i hxy
      rw [List.pairwise_cons]
      constructor
      · intro b hb
        rcases (mem_insertOrdered le x b ys).mp hb with hbx | hb2
        · subst hbx
          rcases Bool.or_eq_true_iff.mp (htot b y) with h1 | h1
          · exact absurd h1 hxy
          · exact h1
        · exact h.1 b hb2
      · exact ih h.2

/-- The stable sort is sorted for a total transitive order. -/

theorem sortStable_pairwise (le : ProcessedItem → ProcessedItem → Bool)
    (htot : ∀ a b, (le a b || le b a) = true)
    (htrans : ∀ a b c, le a b = true → le b c = true → le a c = true)
    (l : List ProcessedItem) : (sortStable le l).Pairwise (fun a b => le a b = true) := by
  induction l with
  | nil => simp [sortStable]
  | cons x xs ih => exact insertOrdered_pairwise le htot htrans x (sortStable le xs) ih

/-- The home-page comparator order is total. -/

theorem homeLe_total : ∀ a b, (homeLe a b || homeLe b a) = true := by
  intro a b
  obtain ⟨ha, pa, ia⟩ := a
  obtain ⟨hb, pb, ib⟩ := b
  cases pa <;> cases pb <;> simp [homeLe, homeCmp] <;> omega

/-- The home-page comparator order is transitive. -/

theorem homeLe_trans :
    ∀ a b c, homeLe a b = true → homeLe b c = true → homeLe a c = true := by
  intro a b c
  obtain ⟨ha, pa, ia⟩ := a
  obtain ⟨hb, pb, ib⟩ := b
  obtain ⟨hc, pc, ic⟩ := c
  cases pa <;> cases pb <;> cases pc <;> simp [homeLe, homeCmp] <;> omega

/-- What the comparator order means: pinned entries come first, and within
equal pinned status the newer creation key comes first. -/

theorem homeLe_imp (a b : ProcessedItem) (h : homeLe a b = true) :
    (b.isPinned = true → a.isPinned = true) ∧
      (a.isPinned = b.isPinned →
        dateVal b.item.created_at ≤ dateVal a.item.created_at) := by
  obtain ⟨ha, pa, ia⟩ := a
  obtain ⟨hb, pb, ib⟩ := b
  cases pa <;> cases pb <;> simp [homeLe, homeCmp] at h ⊢ <;> omega

/-- C7: `renderHomePage` renders one summary block per item of the full
collection (the rendered entries are a permutation of the collection) and
orders them pinned-first, then by creation timestamp descending: in the
rendered order, any entry following a non-pinned entry is non-pinned
(pinned blocks come first regardless of dates), and among entries of equal
pinned status the creation key never increases; in particular for
[A (not pinned, created day 1), B (pinned, created day 0)] the block order
is [B, A]. -/

theorem c7_home_page_order (items : List ArenaItem) :
    ((homeSortedProcessed items).map (fun p => p.item)).Perm items ∧
      (homeSortedProcessed items).Pairwise
        (fun a b => (b.isPinned = true → a.isPinned = true) ∧
          (a.isPinned = b.isPinned →
            dateVal b.item.created_at ≤ dateVal a.item.created_at)) ∧
      homeSortedItems [itemA7, itemB7] = [itemB7, itemA7] := by
  refine ⟨?_, ?_, by decide⟩
  · have h1 : ((items.map homeBlock).map (fun p => p.item)) = items := by
      rw [List.map_map]
      exact ((List.map_congr_left (fun a _ => rfl)).trans (List.map_id items))
    have h2 := (sortStable_perm homeLe (items.map homeBlock)).map (fun p => p.item)
    rw [h1] at h2
    exact h2
  · exact (sortStable_pairwise homeLe homeLe_total homeLe_trans (items.map homeBlock)).imp
      (fun h => homeLe_imp _ _ h)

/-- C7 witness: the ordering evaluated on the two-item scenario. -/

theorem c7_home_page_order_witness :
    homeSortedItems [itemA7, itemB7] = [itemB7, itemA7] :=
  (c7_home_page_order [itemA7, itemB7]).2.2

/-- C5 witness: the substitution evaluated at a concrete value. -/
theorem c5_renderTemplate_substitution_witness :
    (∀ c ∈ (tmplValueToString (TmplValue.str "V")).data, c ≠ '$') ∧
      renderTemplate "pre \x7b\x7b x \x7d\x7d mid \x7b\x7bx\x7d\x7d post"
          [("x", TmplValue.str "V")] =
        "pre " ++ (tmplValueToString (TmplValue.str "V") ++
          (" mid " ++ (tmplValueToString (TmplValue.str "V") ++ " post"))) :=
  ⟨by decide, c5_renderTemplate_substitution.1 (TmplValue.str "V") (by decide)⟩
